import Mathlib

/-! The program cbr2pdf: a verification development.

A shallow embedding of `cbr2pdf.go` (package `main`): the configuration
resolver `getEnv`, the image locator `findImages`, the page renderer
`imgToPdf`, the orchestrator `Convert` and the argument parser `parseArgs`.

Go strings are byte sequences and are modelled as lists of naturals; the
comparison `<` of Go strings is the byte-wise lexicographic one.  Calls into
the operating system and into the archive, codec, resampler and document
libraries are modelled by an environment of outcome functions together with
a chronological log of the calls made.
-/

namespace Cbr2pdf

/-! ## Strings -/

/-- A Go string: its sequence of bytes. -/
abbrev GoString := List Nat

/-- The bytes of an ASCII string literal. -/
def ascii (s : String) : GoString := s.toList.map Char.toNat

/-- Go's built-in `<` on strings: byte-wise lexicographic comparison, a proper
prefix being smaller (`images[i] < images[j]` in `findImages`). -/
def strLess : GoString → GoString → Bool
  | [], [] => false
  | [], _ :: _ => true
  | _ :: _, [] => false
  | a :: as, b :: bs => if a < b then true else if b < a then false else strLess as bs

/-- Backwards scan of `path.Ext`: `rev` holds `path[0..i]` reversed and `acc`
holds `path[i+1:]`; the scan stops at a slash and returns `path[i:]` at a dot. -/
def extLoop : List Nat → GoString → GoString
  | [], _ => []
  | c :: rev, acc =>
    if c = 47 then []
    else if c = 46 then c :: acc
    else extLoop rev (c :: acc)

/-- Go's `path.Ext`: the suffix beginning at the final dot in the final
slash-separated element of `path`; empty if there is no dot. -/
def Ext (path : GoString) : GoString := extLoop path.reverse []

/-- One step of `strings.EqualFold` on bytes: equal, or an upper-case ASCII
letter against its lower-case form. -/
def foldEq (sr tr : Nat) : Bool :=
  if tr = sr then true
  else if tr < sr then 65 ≤ tr && tr ≤ 90 && sr = tr + 32
  else 65 ≤ sr && sr ≤ 90 && tr = sr + 32

/-- Go's `strings.EqualFold`, on its ASCII path.  Both call sites pass an ASCII
literal without the letters k and s as first argument, for which Unicode simple
folding relates ASCII bytes only, so the model is exact there. -/
def EqualFold : GoString → GoString → Bool
  | [], [] => true
  | sr :: s, tr :: t => foldEq sr tr && EqualFold s t
  | _, _ => false

/-! ## Errors -/

/-- A Go `error` value: one made by this program (`errors.New`, `fmt.Errorf`)
with its message, or one handed back by a library or the operating system. -/
inductive GoError
  | new (msg : GoString)
  | ext (code : Nat)
  deriving DecidableEq, Repr

/-! ## Image locator -/

/-- One invocation of the `filepath.Walk` callback: the path, whether the
entry is a directory, and the error Walk reports for it (if any). -/
structure Visit where
  file : GoString
  isDir : Bool
  err : Option GoError
  deriving DecidableEq, Repr

/-- The selection test of `findImages` (line 100). -/
def isImage (file : GoString) : Bool :=
  EqualFold (ascii ".jpg") (Ext file) || EqualFold (ascii ".jpeg") (Ext file)

/-- The callback passed to `filepath.Walk` in `findImages`: the updated
`images` slice and the returned error. -/
def walkFn (images : List GoString) (v : Visit) : List GoString × Option GoError :=
  match v.err with
  | some e => (images, some e)
  | none => if isImage v.file then (images ++ [v.file], none) else (images, none)

/-- Go's `filepath.Walk` over the visits it would make in turn: the callback is
called for the root and every entry below it, and the first error it returns
stops the walk and is returned. -/
def Walk : List Visit → List GoString → List GoString × Option GoError
  | [], images => (images, none)
  | v :: vs, images =>
    match walkFn images v with
    | (images1, some e) => (images1, some e)
    | (images1, none) => Walk vs images1

/-- Insertion of `x` into a list ordered by `less`. -/
def orderedInsert (less : GoString → GoString → Bool) (x : GoString) :
    List GoString → List GoString
  | [] => [x]
  | y :: ys => if less x y then x :: y :: ys else y :: orderedInsert less x ys

/-- Go's `sort.Slice`: the slice rearranged into ascending order of `less`. -/
def sortSlice (less : GoString → GoString → Bool) : List GoString → List GoString
  | [] => []
  | x :: xs => orderedInsert less x (sortSlice less xs)

/-- The function `findImages`, given the visits `filepath.Walk` makes at
`location`: collect, sort with `<`, return the slice and Walk's error. -/
def findImages (visits : List Visit) : List GoString × Option GoError :=
  let r := Walk visits []
  (sortSlice strLess r.1, r.2)

/-! ### Notions taken from the specification -/

/-- ASCII lower-casing of one byte. -/
def lowerByte (c : Nat) : Nat := if 65 ≤ c ∧ c ≤ 90 then c + 32 else c

/-- ASCII lower-casing of a string. -/
def toLower (s : GoString) : GoString := s.map lowerByte

/-- Case-insensitive lexicographic comparison of two path strings. -/
def lessFold (a b : GoString) : Bool := strLess (toLower a) (toLower b)

/-- The extension of `file` equals `.jpg` or `.jpeg` when compared
case-insensitively. -/
def hasJpegExt (file : GoString) : Prop :=
  toLower (Ext file) = ascii ".jpg" ∨ toLower (Ext file) = ascii ".jpeg"

/-- Ascending order for Go's string comparison: no later element is smaller than an earlier
one. -/
def Ascending (l : List GoString) : Prop :=
  l.Pairwise (fun a b => strLess b a = false)

/-- The entries `findImages` selects: those visited before any error whose path
passes the extension test, in visiting order. -/
def selected (visits : List Visit) : List GoString :=
  ((visits.takeWhile (fun v => v.err.isNone)).filter (fun v => isImage v.file)).map Visit.file

/-- A scratch directory holding `B.jpg` and `a.jpg`. -/
def caseVisits : List Visit :=
  [⟨ascii "/t", true, none⟩, ⟨ascii "/t/B.jpg", false, none⟩, ⟨ascii "/t/a.jpg", false, none⟩]

/-- A scratch directory holding one empty directory named `a.jpg`. -/
def dirVisits : List Visit :=
  [⟨ascii "/t", true, none⟩, ⟨ascii "/t/a.jpg", true, none⟩]

/-- A scratch directory holding `1.jpg`, `2.jpg` and `10.jpg`. -/
def numberedVisits : List Visit :=
  [⟨ascii "/t", true, none⟩, ⟨ascii "/t/1.jpg", false, none⟩, ⟨ascii "/t/2.jpg", false, none⟩,
   ⟨ascii "/t/10.jpg", false, none⟩]

/-! ## Configuration resolver -/

/-- What a piece of code that may end the process does: return a value, call
`os.Exit` with a status, or stop on a run-time fault (index out of range). -/
inductive Run (α : Type)
  | ret (a : α)
  | exit (status : Nat)
  | crash
  deriving DecidableEq, Repr

/-- The two failures of `strconv.ParseUint`. -/
inductive NumError
  | malformed
  | outOfRange
  deriving DecidableEq, Repr

/-- The digit loop of `strconv.ParseUint(s, 10, 64)`; `n` is the `uint64`
accumulator.  A letter is a digit of value at least ten and is refused like any
other non-digit; the sum `n*10 + d` wraps modulo `2^64`. -/
def parseUintLoop (n : Nat) : List Nat → Except NumError Nat
  | [] => .ok n
  | c :: s =>
    if 48 ≤ c ∧ c ≤ 57 then
      let d := c - 48
      if n ≥ (2 ^ 64 - 1) / 10 + 1 then .error .outOfRange
      else
        let n10 := n * 10 % 2 ^ 64
        let n1 := (n10 + d) % 2 ^ 64
        if n1 < n10 ∨ n1 > 2 ^ 64 - 1 then .error .outOfRange
        else parseUintLoop n1 s
    else .error .malformed

/-- Go's `strconv.ParseUint(s, 10, 64)`. -/
def ParseUint (s : GoString) : Except NumError Nat :=
  if s = [] then .error .malformed else parseUintLoop 0 s

/-- The type `resolution`. -/
structure resolution where
  w : Nat
  h : Nat
  deriving DecidableEq, Repr

/-- The variable `defaultWidth`. -/
def defaultWidth : Nat := 1072

/-- The variable `defaultHeight`. -/
def defaultHeight : Nat := 1448

/-- The function `getEnv`.  `lookupEnv` is `os.LookupEnv` on the process
environment and `uintSize` the width in bits of the platform's `uint`, to which
the parsed `uint64` is converted.  The line printed before `os.Exit(253)` is not
recorded. -/
def getEnv (uintSize : Nat) (lookupEnv : GoString → Option GoString)
    (key : GoString) (defaultValue : Nat) : Run Nat :=
  match lookupEnv key with
  | none => .ret defaultValue
  | some value =>
    match ParseUint value with
    | .error _ => .exit 253
    | .ok v => .ret (v % 2 ^ uintSize)

/-- The package variable `pageResolution`, initialised at start-up. -/
def pageResolution (uintSize : Nat) (lookupEnv : GoString → Option GoString) :
    Run resolution :=
  match getEnv uintSize lookupEnv (ascii "WIDTH") defaultWidth with
  | .exit s => .exit s
  | .crash => .crash
  | .ret w =>
    match getEnv uintSize lookupEnv (ascii "HEIGHT") defaultHeight with
    | .exit s => .exit s
    | .crash => .crash
    | .ret h => .ret ⟨w, h⟩

/-- A well-formed unsigned base-10 integer: a non-empty string of ASCII digits. -/
def isDecimal (s : GoString) : Prop := s ≠ [] ∧ ∀ c ∈ s, 48 ≤ c ∧ c ≤ 57

/-- The integer a string of decimal digits denotes. -/
def decimalValue (s : GoString) : Nat := s.foldl (fun n c => 10 * n + (c - 48)) 0

/-! ## Argument parser -/

/-- The help test of `parseArgs` (line 151). -/
def isHelp (arg : GoString) : Bool :=
  arg = ascii "-h" || arg = ascii "--help" || arg = ascii "-?"

/-- The function `parseArgs`.  `osArgs` is the package variable `os.Args`, whose
length line 166 tests; `main` passes `os.Args` as `args`.  The usage text printed
before `os.Exit(1)` is not recorded. -/
def parseArgs (osArgs args : List GoString) :
    Run (GoString × GoString × Option GoError) :=
  if args.any isHelp then .exit 1
  else if osArgs.length < 2 then
    .ret ([], [], some (.new (ascii
      "Missing mandatory argument: source file\nRun with --help to display usage")))
  else
    match args with
    | _ :: src :: rest =>
      match rest with
      | dst :: _ => .ret (src, dst, none)
      | [] =>
        let ext := Ext src
        if ext = [] then .ret (src, src ++ ascii ".pdf", none)
        else .ret (src, src.take (src.length - ext.length) ++ ascii ".pdf", none)
    | _ => .crash

/-- The final slash-separated element of a path. -/
def finalElement (p : GoString) : GoString :=
  (p.reverse.takeWhile (fun c => c != 47)).reverse

/-! ## Calls to the outside and their log -/

/-- Go's `filepath.Base` on a Unix path. -/
def Base (path : GoString) : GoString :=
  if path = [] then [46]
  else
    let stripped := path.reverse.dropWhile (fun c => c == 47)
    let last := (stripped.takeWhile (fun c => c != 47)).reverse
    if last = [] then [47] else last

/-- What `ioutil.TempDir` hands back. -/
inductive DirResult
  | ok (dir : GoString)
  | error (e : GoError)
  deriving DecidableEq, Repr

/-- What `jpeg.Decode` hands back: the bounds `Dx`, `Dy` of the decoded image. -/
inductive DecodeResult
  | ok (dx dy : Nat)
  | error (e : GoError)
  deriving DecidableEq, Repr

/-- A call the program makes to the operating system or to a library, with its
outcome. -/
inductive Event
  | tempDir (pattern : GoString) (res : DirResult)
  | removeAll (path : GoString)
  | unrar (src dst : GoString) (err : Option GoError)
  | walk (location : GoString) (visits : List Visit)
  | pdfStart
  | printProgress (image : GoString) (index total : Nat)
  | printFailed (image : GoString) (index total : Nat)
  | printGenerating (dst : GoString)
  | openFile (src : GoString) (err : Option GoError)
  | decode (src : GoString) (res : DecodeResult)
  | close (path : GoString)
  | resize (width height dx dy : Nat)
  | addPage (dx dy : Nat)
  | create (path : GoString) (err : Option GoError)
  | encode (path : GoString) (err : Option GoError)
  | pdfImage (path : GoString) (err : Option GoError)
  | writePdf (dst : GoString) (err : Option GoError)
  deriving DecidableEq, Repr

/-- The world outside the program: for each call, its outcome given the log of
the calls made so far.  `pageResolution` is the package variable of that name
after start-up; `resize` gives the bounds of the image `resize.Resize` returns. -/
structure Env where
  pageResolution : resolution
  tempDir : List Event → GoString → DirResult
  unrar : List Event → GoString → GoString → Option GoError
  walk : List Event → GoString → List Visit
  openFile : List Event → GoString → Option GoError
  decode : List Event → GoString → DecodeResult
  resize : List Event → Nat → Nat → Nat → Nat → Nat × Nat
  create : List Event → GoString → Option GoError
  encode : List Event → GoString → Option GoError
  pdfImage : List Event → GoString → Option GoError
  writePdf : List Event → GoString → Option GoError

/-- The width and height `imgToPdf` passes to `resize.Resize` for an image of
bounds `dx` by `dy` (lines 57 to 61); zero leaves an axis free. -/
def resizeRequest (res : resolution) (dx dy : Nat) : Nat × Nat :=
  if dx < dy then (0, res.h) else (res.h, 0)

/-- The function `imgToPdf`, called when the log is `log`: the returned error
and the calls it makes, in order. -/
def imgToPdf (env : Env) (src : GoString) (log : List Event) :
    Option GoError × List Event :=
  match env.openFile log src with
  | some e => (some e, [.openFile src (some e)])
  | none =>
    let ev1 := [Event.openFile src none]
    match env.decode (log ++ ev1) src with
    | .error e => (some e, ev1 ++ [.decode src (.error e)])
    | .ok dx dy =>
      let ev2 := ev1 ++ [.decode src (.ok dx dy), .close src]
      let req := resizeRequest env.pageResolution dx dy
      let img := env.resize (log ++ ev2) req.1 req.2 dx dy
      let ev3 := ev2 ++ [.resize req.1 req.2 dx dy, .addPage img.1 img.2]
      let staged := src ++ ascii ".resized"
      match env.create (log ++ ev3) staged with
      | some e => (some e, ev3 ++ [.create staged (some e)])
      | none =>
        let ev4 := ev3 ++ [.create staged none]
        match env.encode (log ++ ev4) staged with
        | some e => (some e, ev4 ++ [.encode staged (some e), .close staged])
        | none =>
          let ev5 := ev4 ++ [.encode staged none]
          match env.pdfImage (log ++ ev5) staged with
          | some e => (some e, ev5 ++ [.pdfImage staged (some e), .close staged])
          | none => (none, ev5 ++ [.pdfImage staged none, .close staged])

/-- The loop of `Convert` over `images` (lines 137 to 143), entered at position
`index` when the log is `log`. -/
def renderLoop (env : Env) (total : Nat) :
    Nat → List GoString → List Event → Option GoError × List Event
  | _, [], _ => (none, [])
  | index, image :: rest, log =>
    let p := [Event.printProgress image (index + 1) total]
    let r := imgToPdf env image (log ++ p)
    match r.1 with
    | some e => (some e, p ++ r.2 ++ [.printFailed image (index + 1) total])
    | none =>
      let r2 := renderLoop env total (index + 1) rest (log ++ p ++ r.2)
      (r2.1, p ++ r.2 ++ r2.2)

/-- The part of `Convert` that runs once the scratch directory `tmpDir` exists
(lines 122 to 146), the deferred clean-up apart. -/
def convertBody (env : Env) (src dst tmpDir : GoString) (log : List Event) :
    Option GoError × List Event :=
  match env.unrar log src tmpDir with
  | some e => (some e, [.unrar src tmpDir (some e)])
  | none =>
    let ev1 := [Event.unrar src tmpDir none]
    let visits := env.walk (log ++ ev1) tmpDir
    let ev2 := ev1 ++ [.walk tmpDir visits]
    match findImages visits with
    | (_, some e) => (some e, ev2)
    | (images, none) =>
      if images.length < 1 then (some (.new (src ++ ascii " is empty")), ev2)
      else
        let ev3 := ev2 ++ [.pdfStart]
        let r := renderLoop env images.length 0 images (log ++ ev3)
        match r.1 with
        | some e => (some e, ev3 ++ r.2)
        | none =>
          let ev4 := ev3 ++ r.2 ++ [.printGenerating dst]
          let w := env.writePdf (log ++ ev4) dst
          (w, ev4 ++ [.writePdf dst w])

/-- The function `Convert`: the returned error and the log of the calls made.
The deferred `os.RemoveAll(tmpDir)` runs last on every path past line 121. -/
def Convert (env : Env) (src dst : GoString) : Option GoError × List Event :=
  if src = dst then
    (some (.new (ascii "Source file must not be equal to destination file")), [])
  else
    match env.tempDir [] (Base src) with
    | .error e => (some e, [.tempDir (Base src) (.error e)])
    | .ok tmpDir =>
      let ev1 := [Event.tempDir (Base src) (.ok tmpDir)]
      let r := convertBody env src dst tmpDir ev1
      (r.1, ev1 ++ r.2 ++ [.removeAll tmpDir])

/-! ### Reading a log -/

/-- The paths `imgToPdf` was called on, in order: each call opens its source
first. -/
def opened : List Event → List GoString
  | [] => []
  | .openFile src _ :: evs => src :: opened evs
  | _ :: evs => opened evs

/-- A page of the document under construction: the bounds of the resampled
image that sized it, and the image files placed on it. -/
structure Page where
  dx : Nat
  dy : Nat
  images : List GoString
  deriving DecidableEq, Repr

/-- Effect of one call on the document, newest page first: `AddPageWithOption`
starts a page, a successful `pdf.Image` places a file on the current page. -/
def pdfStep (doc : List Page) : Event → List Page
  | .addPage dx dy => ⟨dx, dy, []⟩ :: doc
  | .pdfImage path none =>
    match doc with
    | [] => []
    | p :: ps => ⟨p.dx, p.dy, p.images ++ [path]⟩ :: ps
  | _ => doc

/-- The pages of the document after the calls of a log, first page first. -/
def document (log : List Event) : List Page := (log.foldl pdfStep []).reverse

/-- A step of `imgToPdf` that failed. -/
def Event.pageFailed : Event → Bool
  | .openFile _ (some _) => true
  | .decode _ (.error _) => true
  | .create _ (some _) => true
  | .encode _ (some _) => true
  | .pdfImage _ (some _) => true
  | _ => false

/-- A step before finalize that failed: scratch creation, extraction, image
location (an error, or no image found), or a step of `imgToPdf`. -/
def Event.failed : Event → Bool
  | .tempDir _ (.error _) => true
  | .unrar _ _ (some _) => true
  | .walk _ visits => (findImages visits).2.isSome || decide ((findImages visits).1.length < 1)
  | ev => ev.pageFailed

/-- The call is one to `imgToPdf`'s `os.Open`. -/
def Event.isOpen : Event → Bool
  | .openFile _ _ => true
  | _ => false

/-- The call is one the loop of `Convert` makes: a progress line or a step of
`imgToPdf`. -/
def Event.inLoop : Event → Bool
  | .printProgress _ _ _ => true
  | .printFailed _ _ _ => true
  | .openFile _ _ => true
  | .decode _ _ => true
  | .close _ => true
  | .resize _ _ _ _ => true
  | .addPage _ _ => true
  | .create _ _ => true
  | .encode _ _ => true
  | .pdfImage _ _ => true
  | _ => false

/-- The call is one to `pdf.WritePdf`. -/
def Event.isWritePdf : Event → Bool
  | .writePdf _ _ => true
  | _ => false

/-! ### Concrete environments -/

/-- A world without failures: the target resolution is the default 1072 by
1448, the scratch directory is `/t`, it holds the entries `visits`, every file
decodes to `dx` by `dy` (the scratch directory itself is no JPEG), and the
resampler honours the request, scaling the free axis in proportion. -/
def calmEnv (visits : List Visit) (dx dy : Nat) : Env where
  pageResolution := ⟨defaultWidth, defaultHeight⟩
  tempDir := fun _ _ => .ok (ascii "/t")
  unrar := fun _ _ _ => none
  walk := fun _ _ => visits
  openFile := fun _ _ => none
  decode := fun _ p => if p = ascii "/t" then .error (.ext 21) else .ok dx dy
  resize := fun _ w h dx dy => if w = 0 then (dx * h / dy, h) else (w, dy * w / dx)
  create := fun _ _ => none
  encode := fun _ _ => none
  pdfImage := fun _ _ => none
  writePdf := fun _ _ => none

/-- The world of `calmEnv` on a scratch directory holding `B.jpg` and `a.jpg`,
except that `/t/a.jpg` is corrupted and does not decode. -/
def corruptEnv : Env :=
  { calmEnv caseVisits 100 200 with
    decode := fun _ p =>
      if p = ascii "/t/B.jpg" then .ok 100 200 else .error (.ext 5) }

/-- A scratch directory holding nothing. -/
def emptyVisits : List Visit := [⟨ascii "/t", true, none⟩]
/-! # Theorems -/

/-! ## The string order -/

theorem strLess_irrefl (a : GoString) : strLess a a = false := by
  induction a with
  | nil => rfl
  | cons x xs ih => simp [strLess, ih]

theorem strLess_trans : ∀ (a b c : GoString),
    strLess a b = true → strLess b c = true → strLess a c = true
  | [], [], _, h, _ => by simp [strLess] at h
  | [], _ :: _, [], _, h => by simp [strLess] at h
  | [], _ :: _, _ :: _, _, _ => by simp [strLess]
  | _ :: _, [], _, h, _ => by simp [strLess] at h
  | _ :: _, _ :: _, [], _, h => by simp [strLess] at h
  | x :: xs, y :: ys, z :: zs, h1, h2 => by
    simp only [strLess] at h1 h2 ⊢
    split_ifs at h1 h2 ⊢ <;> first
      | rfl
      | omega
      | exact strLess_trans xs ys zs h1 h2

theorem strLess_total : ∀ (a b : GoString),
    strLess a b = false → strLess b a = false → a = b
  | [], [], _, _ => rfl
  | [], _ :: _, h, _ => by simp [strLess] at h
  | _ :: _, [], _, h => by simp [strLess] at h
  | x :: xs, y :: ys, h1, h2 => by
    simp only [strLess] at h1 h2
    split_ifs at h1 h2
    have hxy : x = y := by omega
    rw [hxy, strLess_total xs ys h1 h2]

theorem strLess_asymm (a b : GoString) (h : strLess a b = true) : strLess b a = false := by
  cases hba : strLess b a with
  | false => rfl
  | true =>
    have := strLess_trans a b a h hba
    rw [strLess_irrefl] at this
    exact absurd this (by decide)

/-! ## `sort.Slice` -/

theorem orderedInsert_perm (less : GoString → GoString → Bool) (x : GoString) :
    ∀ l : List GoString, (orderedInsert less x l).Perm (x :: l)
  | [] => List.Perm.refl _
  | y :: ys => by
    simp only [orderedInsert]
    split_ifs
    · exact List.Perm.refl _
    · exact ((orderedInsert_perm less x ys).cons y).trans (List.Perm.swap x y ys)

theorem sortSlice_perm (less : GoString → GoString → Bool) :
    ∀ l : List GoString, (sortSlice less l).Perm l
  | [] => List.Perm.refl _
  | x :: xs =>
    (orderedInsert_perm less x _).trans ((sortSlice_perm less xs).cons x)

theorem orderedInsert_ascending (x : GoString) :
    ∀ l : List GoString, Ascending l → Ascending (orderedInsert strLess x l)
  | [], _ => by simp [orderedInsert, Ascending]
  | y :: ys, h => by
    have hy := List.pairwise_cons.mp h
    simp only [orderedInsert]
    split_ifs with hxy
    · refine List.pairwise_cons.mpr ⟨?_, h⟩
      intro b hb
      rcases List.mem_cons.mp hb with rfl | hb
      · exact strLess_asymm _ _ hxy
      · cases hbx : strLess b x with
        | false => rfl
        | true =>
          have := strLess_trans b x y hbx hxy
          rw [hy.1 b hb] at this
          exact absurd this (by decide)
    · refine List.pairwise_cons.mpr ⟨?_, orderedInsert_ascending x ys hy.2⟩
      intro b hb
      rcases List.mem_cons.mp ((orderedInsert_perm strLess x ys).subset hb) with rfl | hb
      · simpa using hxy
      · exact hy.1 b hb

theorem sortSlice_ascending : ∀ l : List GoString, Ascending (sortSlice strLess l)
  | [] => List.Pairwise.nil
  | x :: xs => orderedInsert_ascending x _ (sortSlice_ascending xs)

/-- A sorted rearrangement is unique: whatever algorithm `sort.Slice` runs, its
result for `<` on strings is the list `sortSlice strLess` computes. -/
theorem sortSlice_unique (l r : List GoString) (hp : r.Perm l) (hs : Ascending r) :
    r = sortSlice strLess l := by
  have hp2 : r.Perm (sortSlice strLess l) := hp.trans (sortSlice_perm strLess l).symm
  have : IsAntisymm GoString (fun a b => strLess b a = false) :=
    ⟨fun a b h1 h2 => strLess_total a b h2 h1⟩
  exact List.eq_of_perm_of_sorted hp2 hs (sortSlice_ascending l)

/-! ## The selection test -/

theorem foldEq_lower (sr tr : Nat) (hs : ¬ (65 ≤ sr ∧ sr ≤ 90)) :
    foldEq sr tr = true ↔ lowerByte tr = sr := by
  unfold foldEq lowerByte
  split_ifs <;> simp <;> omega

theorem EqualFold_lower : ∀ (s t : GoString), (∀ c ∈ s, ¬ (65 ≤ c ∧ c ≤ 90)) →
    (EqualFold s t = true ↔ toLower t = s)
  | [], [], _ => by simp [EqualFold, toLower]
  | [], _ :: _, _ => by simp [EqualFold, toLower]
  | _ :: _, [], _ => by simp [EqualFold, toLower]
  | sr :: s, tr :: t, h => by
    have h1 := foldEq_lower sr tr (h sr (List.mem_cons_self _ _))
    have h2 := EqualFold_lower s t (fun c hc => h c (List.mem_cons_of_mem _ hc))
    simp only [EqualFold, Bool.and_eq_true, h1, h2, toLower, List.map_cons, List.cons.injEq]

theorem isImage_iff (file : GoString) : isImage file = true ↔ hasJpegExt file := by
  unfold isImage hasJpegExt
  rw [Bool.or_eq_true, EqualFold_lower _ _ (by decide), EqualFold_lower _ _ (by decide)]

/-! ## `filepath.Walk` and `findImages` -/

theorem Walk_fst : ∀ (visits : List Visit) (images : List GoString),
    (Walk visits images).1 = images ++ selected visits
  | [], images => by simp [Walk, selected]
  | v :: vs, images => by
    have ih := Walk_fst vs
    rcases v with ⟨file, isDir, err⟩
    cases err with
    | some e => simp [Walk, walkFn, selected]
    | none =>
      by_cases hi : isImage file = true
      · simp [Walk, walkFn, selected, hi, ih]
      · simp [Walk, walkFn, selected, hi, ih]

theorem Walk_snd_of_ok : ∀ (visits : List Visit) (images : List GoString),
    (∀ v ∈ visits, v.err = none) → (Walk visits images).2 = none
  | [], images, _ => by simp [Walk]
  | v :: vs, images, h => by
    have hv := h v (List.mem_cons_self _ _)
    have ih := fun im => Walk_snd_of_ok vs im (fun w hw => h w (List.mem_cons_of_mem _ hw))
    rcases v with ⟨file, isDir, err⟩
    simp only at hv
    subst hv
    by_cases hi : isImage file = true
    · simp [Walk, walkFn, hi, ih]
    · simp [Walk, walkFn, hi, ih]

theorem findImages_fst (visits : List Visit) :
    (findImages visits).1 = sortSlice strLess (selected visits) := by
  simp [findImages, Walk_fst]

theorem findImages_perm (visits : List Visit) :
    (findImages visits).1.Perm (selected visits) := by
  rw [findImages_fst]; exact sortSlice_perm _ _

theorem findImages_ascending (visits : List Visit) : Ascending (findImages visits).1 := by
  rw [findImages_fst]; exact sortSlice_ascending _

theorem selected_of_ok (visits : List Visit) (h : ∀ v ∈ visits, v.err = none) :
    selected visits = (visits.filter (fun v => isImage v.file)).map Visit.file := by
  unfold selected
  rw [List.takeWhile_eq_self_iff.mpr]
  intro v hv
  simp [h v hv]

theorem selected_nodup (visits : List Visit) (h : (visits.map Visit.file).Nodup) :
    (selected visits).Nodup := by
  unfold selected
  refine List.Nodup.sublist ?_ h
  exact List.Sublist.map _ ((List.filter_sublist _).trans (List.takeWhile_sublist _))


/-! ## Claims about the image locator -/

/-- C1 (amended): for every sequence of visits and every two paths A and B
returned by `findImages`, at positions i and j, if A sorts before B under the
byte-wise, case-sensitive lexicographic comparison of the full path strings,
then A appears before B in the returned slice. -/
theorem C1_page_order_bytewise (visits : List Visit) (i j : Nat) (A B : GoString)
    (hA : (findImages visits).1[i]? = some A) (hB : (findImages visits).1[j]? = some B)
    (hlt : strLess A B = true) : i < j := by
  obtain ⟨hi, hAe⟩ := List.getElem?_eq_some.mp hA
  obtain ⟨hj, hBe⟩ := List.getElem?_eq_some.mp hB
  by_contra hcon
  rcases Nat.lt_or_ge j i with hji | hji
  · have hp := List.pairwise_iff_getElem.mp (findImages_ascending visits) j i hj hi hji
    rw [hAe, hBe, hlt] at hp
    exact absurd hp (by decide)
  · have hij : i = j := by omega
    subst hij
    rw [hAe] at hBe
    subst hBe
    rw [strLess_irrefl] at hlt
    exact absurd hlt (by decide)

/-- Witness of C1 (amended): `/t/B.jpg` sorts before `/t/a.jpg` byte-wise and comes first. -/
theorem C1_page_order_bytewise_witness :
    (findImages caseVisits).1[0]? = some (ascii "/t/B.jpg") ∧
    (findImages caseVisits).1[1]? = some (ascii "/t/a.jpg") ∧
    strLess (ascii "/t/B.jpg") (ascii "/t/a.jpg") = true ∧ 0 < 1 :=
  ⟨by decide, by decide, by decide,
    C1_page_order_bytewise caseVisits 0 1 (ascii "/t/B.jpg") (ascii "/t/a.jpg")
      (by decide) (by decide) (by decide)⟩

/-- C1 as stated fails: with `B.jpg` and `a.jpg` in the scratch directory,
`/t/a.jpg` sorts before `/t/B.jpg` case-insensitively, yet `findImages` returns
`/t/B.jpg` first. -/
theorem C1_counterexample :
    findImages caseVisits = ([ascii "/t/B.jpg", ascii "/t/a.jpg"], none) ∧
    lessFold (ascii "/t/a.jpg") (ascii "/t/B.jpg") = true ∧
    ¬ (∀ (visits : List Visit) (i j : Nat) (A B : GoString),
        (findImages visits).1[i]? = some A → (findImages visits).1[j]? = some B →
        lessFold A B = true → i < j) := by
  refine ⟨by decide, by decide, ?_⟩
  intro h
  have := h caseVisits 1 0 (ascii "/t/a.jpg") (ascii "/t/B.jpg")
    (by decide) (by decide) (by decide)
  omega

/-- C4 (amended): for every sequence of visits without I/O error and with
pairwise distinct paths, `findImages` returns no error and returns, each exactly
once, exactly the paths of the visited entries (files and directories alike, the
root included) whose extension equals `.jpg` or `.jpeg` case-insensitively. -/
theorem C4_selects_by_extension (visits : List Visit)
    (hok : ∀ v ∈ visits, v.err = none) (hnd : (visits.map Visit.file).Nodup) :
    (findImages visits).2 = none ∧ (findImages visits).1.Nodup ∧
    ∀ p, p ∈ (findImages visits).1 ↔ ∃ v ∈ visits, v.file = p ∧ hasJpegExt p := by
  refine ⟨?_, ?_, ?_⟩
  · simp [findImages, Walk_snd_of_ok visits [] hok]
  · exact (findImages_perm visits).nodup_iff.mpr (selected_nodup visits hnd)
  · intro p
    rw [(findImages_perm visits).mem_iff, selected_of_ok visits hok]
    simp only [List.mem_map, List.mem_filter]
    constructor
    · rintro ⟨v, ⟨hv, hi⟩, rfl⟩
      exact ⟨v, hv, rfl, (isImage_iff _).mp hi⟩
    · rintro ⟨v, hv, rfl, hj⟩
      exact ⟨v, ⟨hv, (isImage_iff _).mpr hj⟩, rfl⟩

/-- Witness of C4 (amended), on a directory holding `B.jpg` and `a.jpg`. -/
theorem C4_selects_by_extension_witness :
    (findImages caseVisits).2 = none ∧ (findImages caseVisits).1.Nodup ∧
    ∀ p, p ∈ (findImages caseVisits).1 ↔ ∃ v ∈ caseVisits, v.file = p ∧ hasJpegExt p :=
  C4_selects_by_extension caseVisits (by decide) (by decide)

/-- C4 as stated fails: a directory named `a.jpg` is returned by `findImages`
although it is not a file. -/
theorem C4_counterexample :
    findImages dirVisits = ([ascii "/t/a.jpg"], none) ∧
    ¬ (∀ (visits : List Visit), (∀ v ∈ visits, v.err = none) →
        (visits.map Visit.file).Nodup →
        ∀ p, p ∈ (findImages visits).1 ↔
          ∃ v ∈ visits, v.file = p ∧ v.isDir = false ∧ hasJpegExt p) := by
  refine ⟨by decide, ?_⟩
  intro h
  have h1 := (h dirVisits (by decide) (by decide) (ascii "/t/a.jpg")).mp (by decide)
  obtain ⟨v, hv, _, hd, _⟩ := h1
  simp only [dirVisits, List.mem_cons, List.mem_singleton, List.not_mem_nil, or_false] at hv
  rcases hv with rfl | rfl <;> simp at hd

/-- C10: for every sequence of visits with pairwise distinct paths, the slice
`findImages` returns is strictly ascending in the plain byte-wise lexicographic
order of the full paths and is a rearrangement of the selected entries; and
whatever the visiting order, `1.jpg`, `2.jpg`, `10.jpg` in one directory come
out as `1.jpg`, `10.jpg`, `2.jpg`. -/
theorem C10_sorted_plain_lexicographic (visits : List Visit)
    (hnd : (visits.map Visit.file).Nodup) :
    (findImages visits).1.Pairwise (fun a b => strLess a b = true) ∧
    (findImages visits).1.Perm (selected visits) ∧
    (∀ vs : List Visit, vs.Perm numberedVisits →
      findImages vs = ([ascii "/t/1.jpg", ascii "/t/10.jpg", ascii "/t/2.jpg"], none)) := by
  refine ⟨?_, findImages_perm visits, ?_⟩
  · have hnd2 : (findImages visits).1.Nodup :=
      (findImages_perm visits).nodup_iff.mpr (selected_nodup visits hnd)
    refine ((findImages_ascending visits).and hnd2).imp ?_
    intro a b hab
    cases hlt : strLess a b with
    | true => rfl
    | false => exact absurd (strLess_total a b hlt hab.1) hab.2
  · intro vs hp
    have hok : ∀ v ∈ vs, v.err = none := by
      intro v hv
      have hall : ∀ w ∈ numberedVisits, w.err = none := by decide
      exact hall v (hp.mem_iff.mp hv)
    have hsel : (selected vs).Perm (selected numberedVisits) := by
      rw [selected_of_ok vs hok, selected_of_ok numberedVisits (by decide)]
      exact (hp.filter _).map _
    have h1 : (findImages vs).1 = sortSlice strLess (selected numberedVisits) :=
      sortSlice_unique _ _ ((findImages_perm vs).trans hsel) (findImages_ascending vs)
    have h2 : (findImages vs).2 = none := by
      simp [findImages, Walk_snd_of_ok vs [] hok]
    have h3 : sortSlice strLess (selected numberedVisits) =
        [ascii "/t/1.jpg", ascii "/t/10.jpg", ascii "/t/2.jpg"] := by decide
    rw [h3] at h1
    exact Prod.ext h1 h2

/-- Witness of C10, on the directory holding `1.jpg`, `2.jpg` and `10.jpg`. -/
theorem C10_sorted_plain_lexicographic_witness :
    (numberedVisits.map Visit.file).Nodup ∧
    (findImages numberedVisits).1.Pairwise (fun a b => strLess a b = true) ∧
    findImages numberedVisits =
      ([ascii "/t/1.jpg", ascii "/t/10.jpg", ascii "/t/2.jpg"], none) :=
  ⟨by decide, (C10_sorted_plain_lexicographic numberedVisits (by decide)).1,
    (C10_sorted_plain_lexicographic numberedVisits (by decide)).2.2 numberedVisits
      (List.Perm.refl _)⟩

/-! ## Claims about the configuration resolver -/

/-- Value of a digit string read after an accumulator `n`. -/
theorem decimal_foldl_ge (s : GoString) : ∀ n : Nat,
    n ≤ s.foldl (fun n c => 10 * n + (c - 48)) n := by
  induction s with
  | nil => intro n; simp
  | cons c s ih =>
    intro n
    simp only [List.foldl_cons]
    exact le_trans (by omega) (ih (10 * n + (c - 48)))

theorem parseUintLoop_ok : ∀ (s : GoString) (n : Nat),
    (∀ c ∈ s, 48 ≤ c ∧ c ≤ 57) →
    s.foldl (fun n c => 10 * n + (c - 48)) n < 2 ^ 64 →
    parseUintLoop n s = .ok (s.foldl (fun n c => 10 * n + (c - 48)) n) := by
  intro s
  induction s with
  | nil => intro n _ _; simp [parseUintLoop]
  | cons c s ih =>
    intro n hd hv
    have hc := hd c (List.mem_cons_self _ _)
    simp only [List.foldl_cons] at hv ⊢
    have hge := decimal_foldl_ge s (10 * n + (c - 48))
    have hlt : 10 * n + (c - 48) < 2 ^ 64 := lt_of_le_of_lt hge hv
    have h10 : n * 10 % 2 ^ 64 = n * 10 := Nat.mod_eq_of_lt (by omega)
    have h11 : (n * 10 + (c - 48)) % 2 ^ 64 = 10 * n + (c - 48) := by
      rw [Nat.mod_eq_of_lt (by omega)]; omega
    simp only [parseUintLoop, hc, and_self, if_true, h10, h11]
    rw [if_neg (by omega), if_neg (by omega)]
    exact ih _ (fun d hdm => hd d (List.mem_cons_of_mem _ hdm)) hv

theorem parseUintLoop_range : ∀ (s : GoString) (n : Nat),
    (∀ c ∈ s, 48 ≤ c ∧ c ≤ 57) → n < 2 ^ 64 →
    2 ^ 64 ≤ s.foldl (fun n c => 10 * n + (c - 48)) n →
    parseUintLoop n s = .error .outOfRange := by
  intro s
  induction s with
  | nil => intro n _ hn hv; simp at hv; omega
  | cons c s ih =>
    intro n hd hn hv
    have hc := hd c (List.mem_cons_self _ _)
    simp only [List.foldl_cons] at hv
    simp only [parseUintLoop, hc, and_self, if_true]
    by_cases hcut : n ≥ (2 ^ 64 - 1) / 10 + 1
    · rw [if_pos hcut]
    · rw [if_neg hcut]
      have h10 : n * 10 % 2 ^ 64 = n * 10 := Nat.mod_eq_of_lt (by omega)
      rw [h10]
      by_cases hov : 2 ^ 64 ≤ n * 10 + (c - 48)
      · have h11 : (n * 10 + (c - 48)) % 2 ^ 64 = n * 10 + (c - 48) - 2 ^ 64 := by omega
        rw [h11, if_pos (by omega)]
      · have h11 : (n * 10 + (c - 48)) % 2 ^ 64 = 10 * n + (c - 48) := by
          rw [Nat.mod_eq_of_lt (by omega)]; omega
        rw [h11, if_neg (by omega)]
        exact ih _ (fun d hdm => hd d (List.mem_cons_of_mem _ hdm)) (by omega) hv

theorem parseUintLoop_malformed : ∀ (s : GoString) (n : Nat),
    ¬ (∀ c ∈ s, 48 ≤ c ∧ c ≤ 57) → ∃ e, parseUintLoop n s = .error e := by
  intro s
  induction s with
  | nil => intro n h; simp at h
  | cons c s ih =>
    intro n h
    by_cases hc : 48 ≤ c ∧ c ≤ 57
    · have hs : ¬ (∀ d ∈ s, 48 ≤ d ∧ d ≤ 57) := by
        intro hall
        apply h
        intro d hd
        rcases List.mem_cons.mp hd with rfl | hd
        · exact hc
        · exact hall d hd
      simp only [parseUintLoop, hc, and_self, if_true]
      split_ifs
      · exact ⟨_, rfl⟩
      · exact ⟨_, rfl⟩
      · exact ih _ hs
    · exact ⟨.malformed, by simp only [parseUintLoop, if_neg hc]⟩

theorem ParseUint_ok (s : GoString) (hd : isDecimal s) (hv : decimalValue s < 2 ^ 64) :
    ParseUint s = .ok (decimalValue s) := by
  unfold ParseUint
  rw [if_neg hd.1]
  exact parseUintLoop_ok s 0 hd.2 hv

theorem ParseUint_error (s : GoString) (h : ¬ isDecimal s ∨ 2 ^ 64 ≤ decimalValue s) :
    ∃ e, ParseUint s = .error e := by
  unfold ParseUint
  by_cases hs : s = []
  · exact ⟨.malformed, by rw [if_pos hs]⟩
  · rw [if_neg hs]
    by_cases hd : ∀ c ∈ s, 48 ≤ c ∧ c ≤ 57
    · rcases h with h | h
      · exact absurd ⟨hs, hd⟩ h
      · exact ⟨_, parseUintLoop_range s 0 hd (by norm_num) h⟩
    · exact parseUintLoop_malformed s 0 hd

/-- C9 (amended): `getEnv` returns the default when the key is absent; when the
key is present and its value is a non-empty string of decimal digits denoting a
number below 2^64 it returns that number converted to `uint` (the number itself
where `uint` has 64 bits, zero included); when the key is present and its value
is not such a string, or denotes 2^64 or more, it ends the process with status
253.  With both keys absent the resolution is 1072 by 1448. -/
theorem C9_getEnv (uintSize : Nat) (lookupEnv : GoString → Option GoString)
    (key : GoString) (d : Nat) :
    (lookupEnv key = none → getEnv uintSize lookupEnv key d = .ret d) ∧
    (∀ value, lookupEnv key = some value → isDecimal value → decimalValue value < 2 ^ 64 →
      getEnv uintSize lookupEnv key d = .ret (decimalValue value % 2 ^ uintSize) ∧
      (64 ≤ uintSize → getEnv uintSize lookupEnv key d = .ret (decimalValue value))) ∧
    (∀ value, lookupEnv key = some value →
      (¬ isDecimal value ∨ 2 ^ 64 ≤ decimalValue value) →
      getEnv uintSize lookupEnv key d = .exit 253) ∧
    (lookupEnv (ascii "WIDTH") = none → lookupEnv (ascii "HEIGHT") = none →
      pageResolution uintSize lookupEnv = .ret ⟨1072, 1448⟩) := by
  refine ⟨?_, ?_, ?_, ?_⟩
  · intro h
    simp [getEnv, h]
  · intro value h hd hv
    have hp := ParseUint_ok value hd hv
    have h1 : getEnv uintSize lookupEnv key d = .ret (decimalValue value % 2 ^ uintSize) := by
      simp [getEnv, h, hp]
    refine ⟨h1, fun h64 => ?_⟩
    rw [h1, Nat.mod_eq_of_lt]
    exact lt_of_lt_of_le hv (Nat.pow_le_pow_right (by norm_num) h64)
  · intro value h hbad
    obtain ⟨e, he⟩ := ParseUint_error value hbad
    simp [getEnv, h, he]
  · intro hw hh
    simp [pageResolution, getEnv, hw, hh, defaultWidth, defaultHeight]

/-- C9 as stated fails: the well-formed decimal string `18446744073709551616`
(2^64) is not accepted; `getEnv` ends the process with status 253. -/
theorem C9_counterexample :
    isDecimal (ascii "18446744073709551616") ∧
    decimalValue (ascii "18446744073709551616") = 2 ^ 64 ∧
    getEnv 64 (fun _ => some (ascii "18446744073709551616")) (ascii "WIDTH") defaultWidth
      = .exit 253 ∧
    ¬ (∀ (lookupEnv : GoString → Option GoString) (key value : GoString) (d : Nat),
        lookupEnv key = some value → isDecimal value →
        getEnv 64 lookupEnv key d = .ret (decimalValue value)) := by
  have h1 : isDecimal (ascii "18446744073709551616") := by
    unfold isDecimal; decide
  have h3 : getEnv 64 (fun _ => some (ascii "18446744073709551616")) (ascii "WIDTH")
      defaultWidth = .exit 253 := by decide
  refine ⟨h1, by decide, h3, ?_⟩
  intro h
  have h4 := h (fun _ => some (ascii "18446744073709551616")) (ascii "WIDTH")
    (ascii "18446744073709551616") defaultWidth rfl h1
  rw [h3] at h4
  exact absurd h4 (by decide)

/-! ## Claim about the resize request -/

/-- C2 (evaluation at the failing input): with the default resolution 1072 by
1448, for a landscape image of 200 by 100 `imgToPdf` asks the resampler for
width 1448, the target height, and not for the target width 1072; for a portrait
image of 100 by 200 it asks for height 1448. -/
theorem C2_landscape_requests_target_height :
    Event.resize 1448 0 200 100 ∈
      (imgToPdf (calmEnv [] 200 100) (ascii "/t/a.jpg") []).2 ∧
    Event.resize 1072 0 200 100 ∉
      (imgToPdf (calmEnv [] 200 100) (ascii "/t/a.jpg") []).2 ∧
    (calmEnv [] 200 100).pageResolution = ⟨1072, 1448⟩ ∧
    Event.resize 0 1448 100 200 ∈
      (imgToPdf (calmEnv [] 100 200) (ascii "/t/a.jpg") []).2 := by
  refine ⟨by decide, by decide, by decide, by decide⟩

/-- Witness of C9: `WIDTH=758` resolves to 758, `WIDTH=0` to 0, and `WIDTH=abc`
ends the process with status 253. -/
theorem C9_getEnv_witness :
    getEnv 64 (fun _ => some (ascii "758")) (ascii "WIDTH") defaultWidth = .ret 758 ∧
    getEnv 64 (fun _ => some (ascii "0")) (ascii "WIDTH") defaultWidth = .ret 0 ∧
    getEnv 64 (fun _ => some (ascii "abc")) (ascii "WIDTH") defaultWidth = .exit 253 :=
  ⟨((C9_getEnv 64 (fun _ => some (ascii "758")) (ascii "WIDTH") defaultWidth).2.1
      (ascii "758") rfl (by unfold isDecimal; decide) (by decide)).2 (le_refl 64),
   ((C9_getEnv 64 (fun _ => some (ascii "0")) (ascii "WIDTH") defaultWidth).2.1
      (ascii "0") rfl (by unfold isDecimal; decide) (by decide)).2 (le_refl 64),
   (C9_getEnv 64 (fun _ => some (ascii "abc")) (ascii "WIDTH") defaultWidth).2.2.1
      (ascii "abc") rfl (Or.inl (by unfold isDecimal; decide))⟩

/-! ## Claim about the argument parser -/

theorem extLoop_dot : ∀ (r acc rest : List Nat), (∀ c ∈ r, c ≠ 46 ∧ c ≠ 47) →
    extLoop (r ++ 46 :: rest) acc = 46 :: (r.reverse ++ acc)
  | [], acc, rest, _ => by simp [extLoop]
  | c :: r, acc, rest, h => by
    have hc := h c (List.mem_cons_self _ _)
    have ih := extLoop_dot r (c :: acc) rest (fun d hd => h d (List.mem_cons_of_mem _ hd))
    simp [extLoop, hc.1, hc.2, ih]

theorem extLoop_none : ∀ (r acc : List Nat), 46 ∉ r.takeWhile (fun c => c != 47) →
    extLoop r acc = []
  | [], _, _ => by simp [extLoop]
  | c :: r, acc, h => by
    by_cases h47 : c = 47
    · simp [extLoop, h47]
    · have ht : (c :: r).takeWhile (fun c => c != 47) = c :: r.takeWhile (fun c => c != 47) := by
        have hb : (c != 47) = true := by simpa using h47
        rw [List.takeWhile_cons, hb]; rfl
      rw [ht] at h
      have h46 : c ≠ 46 := fun he => h (he ▸ List.mem_cons_self _ _)
      have ih := extLoop_none r (c :: acc) (fun hm => h (List.mem_cons_of_mem _ hm))
      simp [extLoop, h47, h46, ih]

/-- The extension is the suffix that starts at the last dot of the final element. -/
theorem Ext_of_last_dot (stem tail : GoString) (hdot : 46 ∉ tail) (hslash : 47 ∉ tail) :
    Ext (stem ++ 46 :: tail) = 46 :: tail := by
  unfold Ext
  rw [List.reverse_append, List.reverse_cons, List.append_assoc, List.singleton_append,
    extLoop_dot]
  · simp
  · intro c hc
    have hc2 := List.mem_reverse.mp hc
    exact ⟨fun h => hdot (h ▸ hc2), fun h => hslash (h ▸ hc2)⟩

/-- Without a dot in the final element there is no extension. -/
theorem Ext_of_no_dot (src : GoString) (h : 46 ∉ finalElement src) : Ext src = [] := by
  unfold Ext
  apply extLoop_none
  intro hm
  exact h (List.mem_reverse.mpr hm)

/-- C8: for an argument list `[program, src]` without a help flag (and
`os.Args` holding at least two entries, as it does when it is that list),
`parseArgs` returns `src` unchanged and, if `src` is `stem` followed by the
suffix starting at the last dot of its final slash-separated element, the
destination `stem` followed by `.pdf`; if the final element of `src` has no dot,
the destination `src` followed by `.pdf`.  With a third argument the destination
is that argument unchanged. -/
theorem C8_parseArgs (osArgs : List GoString) (prog src : GoString)
    (hos : 2 ≤ osArgs.length) :
    (isHelp prog = false → isHelp src = false →
      (∀ stem tail, src = stem ++ 46 :: tail → 46 ∉ tail → 47 ∉ tail →
        parseArgs osArgs [prog, src] = .ret (src, stem ++ ascii ".pdf", none)) ∧
      (46 ∉ finalElement src →
        parseArgs osArgs [prog, src] = .ret (src, src ++ ascii ".pdf", none))) ∧
    (∀ dst rest, (∀ a ∈ prog :: src :: dst :: rest, isHelp a = false) →
      parseArgs osArgs (prog :: src :: dst :: rest) = .ret (src, dst, none)) := by
  have hlen : ¬ osArgs.length < 2 := by omega
  refine ⟨fun hp hs => ⟨?_, ?_⟩, ?_⟩
  · intro stem tail hsrc hdot hslash
    have hext : Ext src = 46 :: tail := by rw [hsrc]; exact Ext_of_last_dot stem tail hdot hslash
    have htake : List.take (src.length - (tail.length + 1)) src = stem := by
      rw [hsrc]; simp
    simp [parseArgs, hp, hs, hlen, hext, htake]
  · intro hno
    have hext := Ext_of_no_dot src hno
    simp [parseArgs, hp, hs, hlen, hext]
  · intro dst rest hall
    have hany : (prog :: src :: dst :: rest).any isHelp = false := by
      rw [List.any_eq_false]
      intro a ha
      simp [hall a ha]
    simp only [parseArgs, hany, hlen, if_false]
    simp

/-- Witness of C8: `cbr2pdf comic.cbr` gives the destination `comic.pdf`. -/
theorem C8_parseArgs_witness :
    2 ≤ [ascii "cbr2pdf", ascii "comic.cbr"].length ∧
    parseArgs [ascii "cbr2pdf", ascii "comic.cbr"] [ascii "cbr2pdf", ascii "comic.cbr"]
      = .ret (ascii "comic.cbr", ascii "comic.pdf", none) :=
  ⟨by decide,
    ((C8_parseArgs [ascii "cbr2pdf", ascii "comic.cbr"] (ascii "cbr2pdf") (ascii "comic.cbr")
      (by decide)).1 (by decide) (by decide)).1 (ascii "comic") (ascii "cbr")
      (by decide) (by decide) (by decide)⟩

/-! ## The page renderer and the loop of `Convert` -/

theorem opened_append (l1 l2 : List Event) : opened (l1 ++ l2) = opened l1 ++ opened l2 := by
  induction l1 with
  | nil => rfl
  | cons ev l1 ih => cases ev <;> simp [opened, ih]

theorem opened_eq_nil (l : List Event) (h : ∀ ev ∈ l, ev.isOpen = false) : opened l = [] := by
  induction l with
  | nil => rfl
  | cons ev l ih =>
    have h1 := h ev (List.mem_cons_self _ _)
    have h2 := ih (fun e he => h e (List.mem_cons_of_mem _ he))
    cases ev <;> simp_all [opened, Event.isOpen]

/-- The six ways a call of `imgToPdf` can go: failure at `os.Open`, at
`jpeg.Decode`, at `os.Create`, at `jpeg.Encode`, at `pdf.Image`, or success. -/
theorem imgToPdf_cases (env : Env) (src : GoString) (log : List Event) :
    (∃ e, imgToPdf env src log = (some e, [.openFile src (some e)])) ∨
    (∃ e, imgToPdf env src log = (some e, [.openFile src none, .decode src (.error e)])) ∨
    (∃ lg dx dy rw rh w h, env.decode lg src = .ok dx dy ∧
      ((∃ e, imgToPdf env src log = (some e,
          [.openFile src none, .decode src (.ok dx dy), .close src, .resize rw rh dx dy,
           .addPage w h, .create (src ++ ascii ".resized") (some e)])) ∨
       (∃ e, imgToPdf env src log = (some e,
          [.openFile src none, .decode src (.ok dx dy), .close src, .resize rw rh dx dy,
           .addPage w h, .create (src ++ ascii ".resized") none,
           .encode (src ++ ascii ".resized") (some e), .close (src ++ ascii ".resized")])) ∨
       (∃ e, imgToPdf env src log = (some e,
          [.openFile src none, .decode src (.ok dx dy), .close src, .resize rw rh dx dy,
           .addPage w h, .create (src ++ ascii ".resized") none,
           .encode (src ++ ascii ".resized") none,
           .pdfImage (src ++ ascii ".resized") (some e), .close (src ++ ascii ".resized")])) ∨
       imgToPdf env src log = (none,
          [.openFile src none, .decode src (.ok dx dy), .close src, .resize rw rh dx dy,
           .addPage w h, .create (src ++ ascii ".resized") none,
           .encode (src ++ ascii ".resized") none,
           .pdfImage (src ++ ascii ".resized") none, .close (src ++ ascii ".resized")]))) := by
  cases h1 : env.openFile log src with
  | some e => exact Or.inl ⟨e, by simp [imgToPdf, h1]⟩
  | none =>
    cases h2 : env.decode (log ++ [Event.openFile src none]) src with
    | error e => exact Or.inr (Or.inl ⟨e, by simp [imgToPdf, h1, h2]⟩)
    | ok dx dy =>
      refine Or.inr (Or.inr ⟨_, dx, dy, (resizeRequest env.pageResolution dx dy).1,
        (resizeRequest env.pageResolution dx dy).2,
        (env.resize (log ++ [Event.openFile src none, .decode src (.ok dx dy),
          .close src]) (resizeRequest env.pageResolution dx dy).1
          (resizeRequest env.pageResolution dx dy).2 dx dy).1,
        (env.resize (log ++ [Event.openFile src none, .decode src (.ok dx dy),
          .close src]) (resizeRequest env.pageResolution dx dy).1
          (resizeRequest env.pageResolution dx dy).2 dx dy).2, h2, ?_⟩)
      cases h3 : env.create (log ++ [Event.openFile src none, .decode src (.ok dx dy),
          .close src,
          .resize (resizeRequest env.pageResolution dx dy).1
            (resizeRequest env.pageResolution dx dy).2 dx dy,
          .addPage (env.resize (log ++ [Event.openFile src none, .decode src (.ok dx dy),
              .close src]) (resizeRequest env.pageResolution dx dy).1
              (resizeRequest env.pageResolution dx dy).2 dx dy).1
            (env.resize (log ++ [Event.openFile src none, .decode src (.ok dx dy),
              .close src]) (resizeRequest env.pageResolution dx dy).1
              (resizeRequest env.pageResolution dx dy).2 dx dy).2])
          (src ++ ascii ".resized") with
      | some e => exact Or.inl ⟨e, by simp [imgToPdf, h1, h2, h3]⟩
      | none =>
        cases h4 : env.encode (log ++ [Event.openFile src none, .decode src (.ok dx dy),
            .close src,
            .resize (resizeRequest env.pageResolution dx dy).1
              (resizeRequest env.pageResolution dx dy).2 dx dy,
            .addPage (env.resize (log ++ [Event.openFile src none, .decode src (.ok dx dy),
                .close src]) (resizeRequest env.pageResolution dx dy).1
                (resizeRequest env.pageResolution dx dy).2 dx dy).1
              (env.resize (log ++ [Event.openFile src none, .decode src (.ok dx dy),
                .close src]) (resizeRequest env.pageResolution dx dy).1
                (resizeRequest env.pageResolution dx dy).2 dx dy).2,
            .create (src ++ ascii ".resized") none])
            (src ++ ascii ".resized") with
        | some e => exact Or.inr (Or.inl ⟨e, by simp [imgToPdf, h1, h2, h3, h4]⟩)
        | none =>
          cases h5 : env.pdfImage (log ++ [Event.openFile src none,
              .decode src (.ok dx dy), .close src,
              .resize (resizeRequest env.pageResolution dx dy).1
                (resizeRequest env.pageResolution dx dy).2 dx dy,
              .addPage (env.resize (log ++ [Event.openFile src none, .decode src (.ok dx dy),
                  .close src]) (resizeRequest env.pageResolution dx dy).1
                  (resizeRequest env.pageResolution dx dy).2 dx dy).1
                (env.resize (log ++ [Event.openFile src none, .decode src (.ok dx dy),
                  .close src]) (resizeRequest env.pageResolution dx dy).1
                  (resizeRequest env.pageResolution dx dy).2 dx dy).2,
              .create (src ++ ascii ".resized") none,
              .encode (src ++ ascii ".resized") none])
              (src ++ ascii ".resized") with
          | some e => exact Or.inr (Or.inr (Or.inl ⟨e, by simp [imgToPdf, h1, h2, h3, h4, h5]⟩))
          | none => exact Or.inr (Or.inr (Or.inr (by simp [imgToPdf, h1, h2, h3, h4, h5])))

theorem imgToPdf_opened (env : Env) (src : GoString) (log : List Event) :
    opened (imgToPdf env src log).2 = [src] := by
  rcases imgToPdf_cases env src log with
    ⟨e, h⟩ | ⟨e, h⟩ | ⟨lg, dx, dy, a, b, w, k, hd, ⟨e, h⟩ | ⟨e, h⟩ | ⟨e, h⟩ | h⟩ <;>
  simp [h, opened]

theorem imgToPdf_inLoop (env : Env) (src : GoString) (log : List Event) :
    ∀ ev ∈ (imgToPdf env src log).2, ev.inLoop = true := by
  rcases imgToPdf_cases env src log with
    ⟨e, h⟩ | ⟨e, h⟩ | ⟨lg, dx, dy, a, b, w, k, hd, ⟨e, h⟩ | ⟨e, h⟩ | ⟨e, h⟩ | h⟩ <;>
  simp [h, Event.inLoop]

/-- No step of `imgToPdf` is followed by another `os.Open`. -/
theorem imgToPdf_stop (env : Env) (src : GoString) (log : List Event) :
    (imgToPdf env src log).2.Pairwise (fun a b => a.pageFailed = true → b.isOpen = false) := by
  rcases imgToPdf_cases env src log with
    ⟨e, h⟩ | ⟨e, h⟩ | ⟨lg, dx, dy, a, b, w, k, hd, ⟨e, h⟩ | ⟨e, h⟩ | ⟨e, h⟩ | h⟩ <;>
  simp [h, Event.isOpen]

/-- A call of `imgToPdf` that returns no error has no failed step. -/
theorem imgToPdf_ok_no_failure (env : Env) (src : GoString) (log : List Event)
    (hok : (imgToPdf env src log).1 = none) :
    ∀ ev ∈ (imgToPdf env src log).2, ev.failed = false := by
  rcases imgToPdf_cases env src log with
    ⟨e, h⟩ | ⟨e, h⟩ | ⟨lg, dx, dy, a, b, w, k, hd, ⟨e, h⟩ | ⟨e, h⟩ | ⟨e, h⟩ | h⟩ <;>
  rw [h] at hok ⊢ <;> simp at hok
  simp [Event.failed, Event.pageFailed]

/-- A successful call of `imgToPdf` appends one page carrying the staged file. -/
theorem imgToPdf_ok_page (env : Env) (src : GoString) (log : List Event)
    (hok : (imgToPdf env src log).1 = none) (doc : List Page) :
    ∃ dx dy, (imgToPdf env src log).2.foldl pdfStep doc
      = ⟨dx, dy, [src ++ ascii ".resized"]⟩ :: doc := by
  rcases imgToPdf_cases env src log with
    ⟨e, h⟩ | ⟨e, h⟩ | ⟨lg, dx, dy, a, b, w, k, hd, ⟨e, h⟩ | ⟨e, h⟩ | ⟨e, h⟩ | h⟩ <;>
  rw [h] at hok ⊢ <;> simp at hok
  exact ⟨w, k, by simp [pdfStep]⟩

/-- A call of `imgToPdf` appends at most one page. -/
theorem imgToPdf_pages (env : Env) (src : GoString) (log : List Event) (doc : List Page) :
    ((imgToPdf env src log).2.foldl pdfStep doc).length ≤ doc.length + 1 := by
  rcases imgToPdf_cases env src log with
    ⟨e, h⟩ | ⟨e, h⟩ | ⟨lg, dx, dy, a, b, w, k, hd, ⟨e, h⟩ | ⟨e, h⟩ | ⟨e, h⟩ | h⟩ <;>
  simp [h, pdfStep]

/-- The only file `imgToPdf` creates is its staging file, and only after its
source decoded. -/
theorem imgToPdf_create (env : Env) (src : GoString) (log : List Event)
    (p : GoString) (e : Option GoError) (hc : Event.create p e ∈ (imgToPdf env src log).2) :
    p = src ++ ascii ".resized" ∧ ∃ lg dx dy, env.decode lg src = .ok dx dy := by
  rcases imgToPdf_cases env src log with
    ⟨e1, h⟩ | ⟨e1, h⟩ | ⟨lg, dx, dy, a, b, w, k, hd, ⟨e1, h⟩ | ⟨e1, h⟩ | ⟨e1, h⟩ | h⟩ <;>
  rw [h] at hc <;> simp at hc <;> exact ⟨hc.1, lg, dx, dy, hd⟩

theorem failed_of_pageFailed (ev : Event) (h : ev.pageFailed = true) : ev.failed = true := by
  cases ev <;> simp_all [Event.failed, Event.pageFailed]

theorem failed_of_inLoop (ev : Event) (h : ev.inLoop = true) : ev.failed = ev.pageFailed := by
  cases ev <;> simp_all [Event.failed, Event.inLoop]

/-! ### The loop -/

theorem renderLoop_cons_err (env : Env) (total index : Nat) (image : GoString)
    (rest : List GoString) (log : List Event) (e : GoError)
    (h : (imgToPdf env image (log ++ [Event.printProgress image (index + 1) total])).1 = some e) :
    renderLoop env total index (image :: rest) log =
      (some e, [Event.printProgress image (index + 1) total] ++
        (imgToPdf env image (log ++ [Event.printProgress image (index + 1) total])).2 ++
        [Event.printFailed image (index + 1) total]) := by
  simp [renderLoop, h]

theorem renderLoop_cons_ok (env : Env) (total index : Nat) (image : GoString)
    (rest : List GoString) (log : List Event)
    (h : (imgToPdf env image (log ++ [Event.printProgress image (index + 1) total])).1 = none) :
    renderLoop env total index (image :: rest) log =
      ((renderLoop env total (index + 1) rest
          (log ++ [Event.printProgress image (index + 1) total] ++
            (imgToPdf env image (log ++ [Event.printProgress image (index + 1) total])).2)).1,
        [Event.printProgress image (index + 1) total] ++
        (imgToPdf env image (log ++ [Event.printProgress image (index + 1) total])).2 ++
        (renderLoop env total (index + 1) rest
          (log ++ [Event.printProgress image (index + 1) total] ++
            (imgToPdf env image (log ++ [Event.printProgress image (index + 1) total])).2)).2) := by
  simp [renderLoop, h]

theorem renderLoop_inLoop (env : Env) (total : Nat) : ∀ (images : List GoString)
    (index : Nat) (log : List Event),
    ∀ ev ∈ (renderLoop env total index images log).2, ev.inLoop = true := by
  intro images
  induction images with
  | nil => intro index log; simp [renderLoop]
  | cons image rest ih =>
    intro index log ev hev
    cases h : (imgToPdf env image (log ++ [Event.printProgress image (index + 1) total])).1 with
    | some e =>
      rw [renderLoop_cons_err env total index image rest log e h] at hev
      simp only [List.mem_append, List.mem_singleton] at hev
      rcases hev with (rfl | hev) | rfl
      · rfl
      · exact imgToPdf_inLoop _ _ _ ev hev
      · rfl
    | none =>
      rw [renderLoop_cons_ok env total index image rest log h] at hev
      simp only [List.mem_append, List.mem_singleton] at hev
      rcases hev with (rfl | hev) | hev
      · rfl
      · exact imgToPdf_inLoop _ _ _ ev hev
      · exact ih _ _ ev hev

/-- The loop calls `imgToPdf` on an initial segment of `images`, in order. -/
theorem renderLoop_opened_initial (env : Env) (total : Nat) : ∀ (images : List GoString)
    (index : Nat) (log : List Event),
    opened (renderLoop env total index images log).2 <+: images := by
  intro images
  induction images with
  | nil => intro index log; simp [renderLoop, opened]
  | cons image rest ih =>
    intro index log
    cases h : (imgToPdf env image (log ++ [Event.printProgress image (index + 1) total])).1 with
    | some e =>
      rw [renderLoop_cons_err env total index image rest log e h]
      rw [opened_append, opened_append, imgToPdf_opened]
      exact ⟨rest, rfl⟩
    | none =>
      rw [renderLoop_cons_ok env total index image rest log h]
      rw [opened_append, opened_append, imgToPdf_opened]
      exact (List.prefix_cons_inj image).mpr (ih _ _)

/-- A loop that ends without error called `imgToPdf` on every image. -/
theorem renderLoop_ok_opened (env : Env) (total : Nat) : ∀ (images : List GoString)
    (index : Nat) (log : List Event),
    (renderLoop env total index images log).1 = none →
    opened (renderLoop env total index images log).2 = images := by
  intro images
  induction images with
  | nil => intro index log _; simp [renderLoop, opened]
  | cons image rest ih =>
    intro index log hok
    cases h : (imgToPdf env image (log ++ [Event.printProgress image (index + 1) total])).1 with
    | some e =>
      rw [renderLoop_cons_err env total index image rest log e h] at hok
      exact absurd hok (by simp)
    | none =>
      rw [renderLoop_cons_ok env total index image rest log h] at hok ⊢
      rw [opened_append, opened_append, imgToPdf_opened, ih _ _ hok]
      rfl

/-- A loop that ends without error has no failed step. -/
theorem renderLoop_ok_no_failure (env : Env) (total : Nat) : ∀ (images : List GoString)
    (index : Nat) (log : List Event),
    (renderLoop env total index images log).1 = none →
    ∀ ev ∈ (renderLoop env total index images log).2, ev.failed = false := by
  intro images
  induction images with
  | nil => intro index log _; simp [renderLoop]
  | cons image rest ih =>
    intro index log hok ev hev
    cases h : (imgToPdf env image (log ++ [Event.printProgress image (index + 1) total])).1 with
    | some e =>
      rw [renderLoop_cons_err env total index image rest log e h] at hok
      exact absurd hok (by simp)
    | none =>
      rw [renderLoop_cons_ok env total index image rest log h] at hok hev
      simp only [List.mem_append, List.mem_singleton] at hev
      rcases hev with (rfl | hev) | hev
      · rfl
      · exact imgToPdf_ok_no_failure _ _ _ h ev hev
      · exact ih _ _ hok ev hev

theorem stop_of_no_failure (l : List Event) (h : ∀ a ∈ l, a.pageFailed = false) :
    l.Pairwise (fun a b => a.pageFailed = true → b.isOpen = false) := by
  induction l with
  | nil => exact List.Pairwise.nil
  | cons x l ih =>
    refine List.pairwise_cons.mpr ⟨?_, ih (fun a ha => h a (List.mem_cons_of_mem _ ha))⟩
    intro b _ hx
    rw [h x (List.mem_cons_self _ _)] at hx
    exact absurd hx (by decide)

theorem stop_of_no_open (l : List Event) (h : ∀ b ∈ l, b.isOpen = false) :
    l.Pairwise (fun a b => a.pageFailed = true → b.isOpen = false) := by
  induction l with
  | nil => exact List.Pairwise.nil
  | cons x l ih =>
    refine List.pairwise_cons.mpr ⟨?_, ih (fun a ha => h a (List.mem_cons_of_mem _ ha))⟩
    intro b hb _
    exact h b (List.mem_cons_of_mem _ hb)

theorem stop_append_left (l1 l2 : List Event) (h : ∀ a ∈ l1, a.pageFailed = false)
    (h2 : l2.Pairwise (fun a b => a.pageFailed = true → b.isOpen = false)) :
    (l1 ++ l2).Pairwise (fun a b => a.pageFailed = true → b.isOpen = false) := by
  refine List.pairwise_append.mpr ⟨stop_of_no_failure l1 h, h2, ?_⟩
  intro a ha b _ hx
  rw [h a ha] at hx
  exact absurd hx (by decide)

theorem stop_append_right (l1 l2 : List Event)
    (h1 : l1.Pairwise (fun a b => a.pageFailed = true → b.isOpen = false))
    (h : ∀ b ∈ l2, b.isOpen = false) :
    (l1 ++ l2).Pairwise (fun a b => a.pageFailed = true → b.isOpen = false) := by
  refine List.pairwise_append.mpr ⟨h1, stop_of_no_open l2 h, ?_⟩
  intro a _ b hb _
  exact h b hb

theorem pageFailed_of_ok (l : List Event) (h : ∀ ev ∈ l, ev.failed = false) :
    ∀ a ∈ l, a.pageFailed = false := by
  intro a ha
  cases hp : a.pageFailed with
  | false => rfl
  | true =>
    have := failed_of_pageFailed a hp
    rw [h a ha] at this
    exact absurd this (by decide)

/-- Once a step of `imgToPdf` has failed, the loop makes no further call of
`imgToPdf`. -/
theorem renderLoop_stop (env : Env) (total : Nat) : ∀ (images : List GoString)
    (index : Nat) (log : List Event),
    (renderLoop env total index images log).2.Pairwise
      (fun a b => a.pageFailed = true → b.isOpen = false) := by
  intro images
  induction images with
  | nil => intro index log; simp [renderLoop]
  | cons image rest ih =>
    intro index log
    cases h : (imgToPdf env image (log ++ [Event.printProgress image (index + 1) total])).1 with
    | some e =>
      rw [renderLoop_cons_err env total index image rest log e h, List.append_assoc]
      refine stop_append_left _ _ (by simp [Event.pageFailed]) ?_
      exact stop_append_right _ _ (imgToPdf_stop _ _ _) (by simp [Event.isOpen])
    | none =>
      rw [renderLoop_cons_ok env total index image rest log h]
      refine stop_append_left _ _ ?_ (ih _ _)
      intro a ha
      rcases List.mem_append.mp ha with ha | ha
      · simp only [List.mem_singleton] at ha
        subst ha
        rfl
      · exact pageFailed_of_ok _ (imgToPdf_ok_no_failure _ _ _ h) a ha

/-- A loop that ends without error appended one page per image, in order, each
page carrying the staged file of its image. -/
theorem renderLoop_ok_doc (env : Env) (total : Nat) : ∀ (images : List GoString)
    (index : Nat) (log : List Event),
    (renderLoop env total index images log).1 = none → ∀ doc : List Page,
    ∃ pages : List Page,
      (renderLoop env total index images log).2.foldl pdfStep doc = pages.reverse ++ doc ∧
      pages.map Page.images = images.map (fun i => [i ++ ascii ".resized"]) := by
  intro images
  induction images with
  | nil => intro index log _ doc; exact ⟨[], by simp [renderLoop]⟩
  | cons image rest ih =>
    intro index log hok doc
    cases h : (imgToPdf env image (log ++ [Event.printProgress image (index + 1) total])).1 with
    | some e =>
      rw [renderLoop_cons_err env total index image rest log e h] at hok
      exact absurd hok (by simp)
    | none =>
      rw [renderLoop_cons_ok env total index image rest log h] at hok ⊢
      obtain ⟨dx, dy, hpage⟩ := imgToPdf_ok_page env image
        (log ++ [Event.printProgress image (index + 1) total]) h doc
      obtain ⟨pages, hfold, hmap⟩ := ih _ _ hok (⟨dx, dy, [image ++ ascii ".resized"]⟩ :: doc)
      refine ⟨⟨dx, dy, [image ++ ascii ".resized"]⟩ :: pages, ?_, ?_⟩
      · rw [List.foldl_append, List.foldl_append]
        have h0 : List.foldl pdfStep doc [Event.printProgress image (index + 1) total] = doc := rfl
        rw [h0, hpage, hfold]
        simp
      · simp [hmap]

/-- The loop appends at most one page per call of `imgToPdf`. -/
theorem renderLoop_pages (env : Env) (total : Nat) : ∀ (images : List GoString)
    (index : Nat) (log : List Event) (doc : List Page),
    ((renderLoop env total index images log).2.foldl pdfStep doc).length ≤
      doc.length + (opened (renderLoop env total index images log).2).length := by
  intro images
  induction images with
  | nil => intro index log doc; simp [renderLoop]
  | cons image rest ih =>
    intro index log doc
    have hp := imgToPdf_pages env image
      (log ++ [Event.printProgress image (index + 1) total]) doc
    have h0 : List.foldl pdfStep doc [Event.printProgress image (index + 1) total] = doc := rfl
    cases h : (imgToPdf env image (log ++ [Event.printProgress image (index + 1) total])).1 with
    | some e =>
      rw [renderLoop_cons_err env total index image rest log e h]
      rw [List.foldl_append, List.foldl_append, h0, opened_append, opened_append,
        imgToPdf_opened]
      have h1 : ∀ d : List Page,
          List.foldl pdfStep d [Event.printFailed image (index + 1) total] = d := fun _ => rfl
      rw [h1]
      simp only [List.length_append, List.length_singleton]
      omega
    | none =>
      rw [renderLoop_cons_ok env total index image rest log h]
      rw [List.foldl_append, List.foldl_append, h0, opened_append, opened_append,
        imgToPdf_opened]
      have := ih (index + 1) (log ++ [Event.printProgress image (index + 1) total] ++
        (imgToPdf env image (log ++ [Event.printProgress image (index + 1) total])).2)
        (List.foldl pdfStep doc
          (imgToPdf env image (log ++ [Event.printProgress image (index + 1) total])).2)
      simp only [List.length_append, List.length_singleton]
      omega

/-- Every file the loop creates is the staging file of one of the images, whose
source decoded. -/
theorem renderLoop_create (env : Env) (total : Nat) : ∀ (images : List GoString)
    (index : Nat) (log : List Event) (p : GoString) (e : Option GoError),
    Event.create p e ∈ (renderLoop env total index images log).2 →
    ∃ img ∈ images, p = img ++ ascii ".resized" ∧ ∃ lg dx dy, env.decode lg img = .ok dx dy := by
  intro images
  induction images with
  | nil => intro index log p e h; simp [renderLoop] at h
  | cons image rest ih =>
    intro index log p e hc
    cases h : (imgToPdf env image (log ++ [Event.printProgress image (index + 1) total])).1 with
    | some e1 =>
      rw [renderLoop_cons_err env total index image rest log e1 h] at hc
      simp only [List.mem_append, List.mem_singleton] at hc
      rcases hc with (hc | hc) | hc
      · exact absurd hc (by simp)
      · exact ⟨image, List.mem_cons_self _ _, imgToPdf_create _ _ _ p e hc⟩
      · exact absurd hc (by simp)
    | none =>
      rw [renderLoop_cons_ok env total index image rest log h] at hc
      simp only [List.mem_append, List.mem_singleton] at hc
      rcases hc with (hc | hc) | hc
      · exact absurd hc (by simp)
      · exact ⟨image, List.mem_cons_self _ _, imgToPdf_create _ _ _ p e hc⟩
      · obtain ⟨img, hm, hrest⟩ := ih _ _ p e hc
        exact ⟨img, List.mem_cons_of_mem _ hm, hrest⟩

/-! ### The body of `Convert` -/

/-- The five ways the body of `Convert` can go: extraction fails, the walk
reports an error, no image is found, a page fails, or finalize is reached. -/
theorem convertBody_cases (env : Env) (src dst tmpDir : GoString) (log : List Event) :
    (∃ e, convertBody env src dst tmpDir log = (some e, [.unrar src tmpDir (some e)])) ∨
    (∃ lg, ∃ e, (findImages (env.walk lg tmpDir)).2 = some e ∧
      convertBody env src dst tmpDir log =
        (some e, [.unrar src tmpDir none, .walk tmpDir (env.walk lg tmpDir)])) ∨
    (∃ lg, findImages (env.walk lg tmpDir) = ([], none) ∧
      convertBody env src dst tmpDir log =
        (some (.new (src ++ ascii " is empty")),
          [.unrar src tmpDir none, .walk tmpDir (env.walk lg tmpDir)])) ∨
    (∃ lg lg2, (findImages (env.walk lg tmpDir)).2 = none ∧
      1 ≤ (findImages (env.walk lg tmpDir)).1.length ∧
      ((∃ e, (renderLoop env (findImages (env.walk lg tmpDir)).1.length 0
            (findImages (env.walk lg tmpDir)).1 lg2).1 = some e ∧
          convertBody env src dst tmpDir log =
            (some e, [.unrar src tmpDir none, .walk tmpDir (env.walk lg tmpDir), .pdfStart] ++
              (renderLoop env (findImages (env.walk lg tmpDir)).1.length 0
                (findImages (env.walk lg tmpDir)).1 lg2).2)) ∨
       (∃ w, (renderLoop env (findImages (env.walk lg tmpDir)).1.length 0
            (findImages (env.walk lg tmpDir)).1 lg2).1 = none ∧
          convertBody env src dst tmpDir log =
            (w, [.unrar src tmpDir none, .walk tmpDir (env.walk lg tmpDir), .pdfStart] ++
              (renderLoop env (findImages (env.walk lg tmpDir)).1.length 0
                (findImages (env.walk lg tmpDir)).1 lg2).2 ++
              [.printGenerating dst, .writePdf dst w])))) := by
  cases h1 : env.unrar log src tmpDir with
  | some e => exact Or.inl ⟨e, by simp [convertBody, h1]⟩
  | none =>
    right
    rcases hf : findImages (env.walk (log ++ [Event.unrar src tmpDir none]) tmpDir)
      with ⟨images, err⟩
    cases err with
    | some e =>
      exact Or.inl ⟨_, e, by rw [hf], by simp [convertBody, h1, hf]⟩
    | none =>
      right
      by_cases hlen : images.length < 1
      · have hnil : images = [] := List.length_eq_zero.mp (by omega)
        subst hnil
        exact Or.inl ⟨_, hf, by simp [convertBody, h1, hf]⟩
      · right
        refine ⟨log ++ [Event.unrar src tmpDir none],
          log ++ [Event.unrar src tmpDir none,
            .walk tmpDir (env.walk (log ++ [Event.unrar src tmpDir none]) tmpDir), .pdfStart],
          by rw [hf], by rw [hf]; simp only; omega, ?_⟩
        rw [hf]
        simp only
        cases h2 : (renderLoop env images.length 0 images
          (log ++ [Event.unrar src tmpDir none,
            .walk tmpDir (env.walk (log ++ [Event.unrar src tmpDir none]) tmpDir),
            .pdfStart])).1 with
        | some e =>
          exact Or.inl ⟨e, rfl, by simp [convertBody, h1, hf, hlen, h2]⟩
        | none =>
          exact Or.inr ⟨_, rfl, by simp [convertBody, h1, hf, hlen, h2]; rfl⟩

/-! ## Claims about the orchestrator -/

/-- The three ways `Convert` can start: the paths are equal, the scratch
directory cannot be made, or the body runs and the scratch directory is removed. -/
theorem Convert_cases (env : Env) (src dst : GoString) :
    (src = dst ∧ Convert env src dst =
      (some (.new (ascii "Source file must not be equal to destination file")), [])) ∨
    (src ≠ dst ∧ ∃ e, env.tempDir [] (Base src) = .error e ∧
      Convert env src dst = (some e, [.tempDir (Base src) (.error e)])) ∨
    (src ≠ dst ∧ ∃ tmpDir, env.tempDir [] (Base src) = .ok tmpDir ∧
      Convert env src dst =
        ((convertBody env src dst tmpDir [.tempDir (Base src) (.ok tmpDir)]).1,
          [Event.tempDir (Base src) (.ok tmpDir)] ++
          (convertBody env src dst tmpDir [.tempDir (Base src) (.ok tmpDir)]).2 ++
          [.removeAll tmpDir])) := by
  by_cases h : src = dst
  · exact Or.inl ⟨h, by simp [Convert, h]⟩
  · right
    cases ht : env.tempDir [] (Base src) with
    | error e => exact Or.inl ⟨h, e, rfl, by simp [Convert, h, ht]⟩
    | ok tmpDir => exact Or.inr ⟨h, tmpDir, rfl, by simp [Convert, h, ht]⟩

/-- C7: for every pair of paths with `src` equal to `dst`, `Convert` returns the
validation error at once, with an empty log: no scratch directory is created, no
extraction is attempted, no image is located or rendered and nothing is written. -/
theorem C7_equal_paths_rejected (env : Env) (src dst : GoString) (h : src = dst) :
    Convert env src dst =
      (some (.new (ascii "Source file must not be equal to destination file")), []) := by
  simp [Convert, h]

/-- Witness of C7: converting `a.cbr` onto itself. -/
theorem C7_equal_paths_rejected_witness :
    Convert (calmEnv caseVisits 100 200) (ascii "a.cbr") (ascii "a.cbr") =
      (some (.new (ascii "Source file must not be equal to destination file")), []) :=
  C7_equal_paths_rejected (calmEnv caseVisits 100 200) (ascii "a.cbr") (ascii "a.cbr") rfl

/-- C5: in every run of `Convert` in which the paths are equal or a step before
finalize fails (scratch creation, extraction, image location, no image found, a
step of `imgToPdf`), `Convert` returns an error and `pdf.WritePdf` is never
called; and when the walk finds no image the error is the `<src> is empty` one
and the extraction had succeeded. -/
theorem C5_failure_never_writes (env : Env) (src dst : GoString) :
    ((src = dst ∨ ∃ ev ∈ (Convert env src dst).2, ev.failed = true) →
      (Convert env src dst).1.isSome = true ∧
      ∀ ev ∈ (Convert env src dst).2, ev.isWritePdf = false) ∧
    (∀ loc visits, Event.walk loc visits ∈ (Convert env src dst).2 →
      findImages visits = ([], none) →
      (Convert env src dst).1 = some (.new (src ++ ascii " is empty")) ∧
      ∀ s d e, Event.unrar s d e ∈ (Convert env src dst).2 → e = none) := by
  rcases Convert_cases env src dst with ⟨heq, hc⟩ | ⟨hne, e, _, hc⟩ | ⟨hne, tmpDir, _, hc⟩
  · rw [hc]; simp
  · rw [hc]; simp [Event.isWritePdf]
  · rcases convertBody_cases env src dst tmpDir [.tempDir (Base src) (.ok tmpDir)] with
      ⟨e, hb⟩ | ⟨lg, e, hf, hb⟩ | ⟨lg, hf, hb⟩ | ⟨lg, lg2, hf, hlen, ⟨e, hr, hb⟩ | ⟨w, hr, hb⟩⟩
    · rw [hc, hb]; simp [Event.isWritePdf]
    · rw [hc, hb]
      refine ⟨fun _ => by simp [Event.isWritePdf], ?_⟩
      intro loc visits hw hfi
      simp only [List.mem_append, List.mem_cons, List.mem_singleton, List.not_mem_nil,
        or_false] at hw
      rcases hw with (hw | hw | hw) | hw
      · exact absurd hw (by simp)
      · exact absurd hw (by simp)
      · simp only [Event.walk.injEq] at hw
        rw [hw.2] at hfi
        rw [hfi] at hf
        exact absurd hf (by simp)
      · exact absurd hw (by simp)
    · rw [hc, hb]
      refine ⟨fun _ => by simp [Event.isWritePdf], ?_⟩
      intro loc visits hw hfi
      simp
    · rw [hc, hb]
      have hin := renderLoop_inLoop env (findImages (env.walk lg tmpDir)).1.length
        (findImages (env.walk lg tmpDir)).1 0 lg2
      refine ⟨fun _ => ⟨by simp, ?_⟩, ?_⟩
      · intro ev hev
        simp only [List.mem_append, List.mem_cons, List.mem_singleton, List.not_mem_nil,
          or_false] at hev
        rcases hev with (rfl | (rfl | rfl | rfl) | hev) | rfl
        · rfl
        · rfl
        · rfl
        · rfl
        · have := hin ev hev
          cases ev <;> simp_all [Event.inLoop, Event.isWritePdf]
        · rfl
      · intro loc visits hw hfi
        simp only [List.mem_append, List.mem_cons, List.mem_singleton, List.not_mem_nil,
          or_false] at hw
        rcases hw with (hw | (hw | hw | hw) | hw) | hw
        · exact absurd hw (by simp)
        · exact absurd hw (by simp)
        · simp only [Event.walk.injEq] at hw
          rw [hw.2] at hfi
          rw [hfi] at hlen
          simp at hlen
        · exact absurd hw (by simp)
        · have := hin _ hw
          simp [Event.inLoop] at this
        · exact absurd hw (by simp)
    · rw [hc, hb]
      have hin := renderLoop_inLoop env (findImages (env.walk lg tmpDir)).1.length
        (findImages (env.walk lg tmpDir)).1 0 lg2
      have hnf := renderLoop_ok_no_failure env (findImages (env.walk lg tmpDir)).1.length
        (findImages (env.walk lg tmpDir)).1 0 lg2 hr
      refine ⟨?_, ?_⟩
      · rintro (heq | ⟨ev, hev, hfail⟩)
        · exact absurd heq hne
        · exfalso
          simp only [List.mem_append, List.mem_cons, List.mem_singleton, List.not_mem_nil,
            or_false] at hev
          rcases hev with (rfl | ((rfl | rfl | rfl) | hev) | (rfl | rfl)) | rfl
          · simp [Event.failed, Event.pageFailed] at hfail
          · simp [Event.failed, Event.pageFailed] at hfail
          · simp only [Event.failed, hf, Option.isSome_none, Bool.false_or,
              decide_eq_true_eq] at hfail
            omega
          · simp [Event.failed, Event.pageFailed] at hfail
          · rw [hnf ev hev] at hfail
            exact absurd hfail (by decide)
          · simp [Event.failed, Event.pageFailed] at hfail
          · simp [Event.failed, Event.pageFailed] at hfail
          · simp [Event.failed, Event.pageFailed] at hfail
      · intro loc visits hw hfi
        simp only [List.mem_append, List.mem_cons, List.mem_singleton, List.not_mem_nil,
          or_false] at hw
        rcases hw with (hw | ((hw | hw | hw) | hw) | (hw | hw)) | hw
        · exact absurd hw (by simp)
        · exact absurd hw (by simp)
        · simp only [Event.walk.injEq] at hw
          rw [hw.2] at hfi
          rw [hfi] at hlen
          simp at hlen
        · exact absurd hw (by simp)
        · have := hin _ hw
          simp [Event.inLoop] at this
        · exact absurd hw (by simp)
        · exact absurd hw (by simp)
        · exact absurd hw (by simp)

theorem mem_selected (visits : List Visit) (p : GoString) (h : p ∈ selected visits) :
    ∃ v ∈ visits, v.file = p := by
  unfold selected at h
  obtain ⟨v, hv, rfl⟩ := List.mem_map.mp h
  exact ⟨v, (List.takeWhile_sublist _).subset (List.mem_filter.mp hv).1, rfl⟩

/-- C6: in every run of `Convert` that creates its scratch directory `dir`
(the paths differ and `ioutil.TempDir` succeeds), the last call made, on every
exit path, is `os.RemoveAll(dir)`; and, the walk yielding only `dir` itself and
paths below `dir`, and `dir` itself not decoding as a JPEG, every file created
by `imgToPdf` lies below `dir`, hence is removed with it. -/
theorem C6_scratch_removed (env : Env) (src dst dir : GoString) (hne : src ≠ dst)
    (ht : env.tempDir [] (Base src) = .ok dir)
    (hwalk : ∀ log v, v ∈ env.walk log dir → v.file = dir ∨ (dir ++ [47]) <+: v.file)
    (hdir : ∀ log, ∃ e, env.decode log dir = .error e) :
    (Convert env src dst).2.getLast? = some (.removeAll dir) ∧
    (Convert env src dst).2.head? = some (.tempDir (Base src) (.ok dir)) ∧
    ∀ p e, Event.create p e ∈ (Convert env src dst).2 → (dir ++ [47]) <+: p := by
  rcases Convert_cases env src dst with ⟨heq, _⟩ | ⟨_, e, hte, _⟩ | ⟨_, tmpDir, hto, hc⟩
  · exact absurd heq hne
  · rw [ht] at hte
    exact absurd hte (by simp)
  · rw [ht] at hto
    injection hto with hto
    subst hto
    refine ⟨by rw [hc]; exact List.getLast?_concat _, by rw [hc]; rfl, ?_⟩
    intro p e hp
    have hstage : ∀ (lg lg2 : List Event),
        Event.create p e ∈ (renderLoop env (findImages (env.walk lg dir)).1.length 0
          (findImages (env.walk lg dir)).1 lg2).2 → (dir ++ [47]) <+: p := by
      intro lg lg2 hin
      obtain ⟨img, himg, hpe, lgd, dx, dy, hdec⟩ := renderLoop_create _ _ _ _ _ _ _ hin
      obtain ⟨v, hv, hvf⟩ := mem_selected _ _ ((findImages_perm _).mem_iff.mp himg)
      rcases hwalk lg v hv with hroot | hbelow
      · obtain ⟨e2, he2⟩ := hdir lgd
        rw [← hvf, hroot, he2] at hdec
        exact absurd hdec (by simp)
      · rw [hpe, ← hvf]
        exact hbelow.trans (List.prefix_append _ _)
    rw [hc] at hp
    rcases convertBody_cases env src dst dir [.tempDir (Base src) (.ok dir)] with
      ⟨e1, hb⟩ | ⟨lg, e1, hf, hb⟩ | ⟨lg, hf, hb⟩ | ⟨lg, lg2, hf, hlen, ⟨e1, hr, hb⟩ | ⟨w, hr, hb⟩⟩
    · rw [hb] at hp; simp at hp
    · rw [hb] at hp; simp at hp
    · rw [hb] at hp; simp at hp
    · rw [hb] at hp
      simp only [List.mem_append, List.mem_cons, List.mem_singleton, List.not_mem_nil,
        or_false] at hp
      rcases hp with (hp | (hp | hp | hp) | hp) | hp
      · exact absurd hp (by simp)
      · exact absurd hp (by simp)
      · exact absurd hp (by simp)
      · exact absurd hp (by simp)
      · exact hstage lg lg2 hp
      · exact absurd hp (by simp)
    · rw [hb] at hp
      simp only [List.mem_append, List.mem_cons, List.mem_singleton, List.not_mem_nil,
        or_false] at hp
      rcases hp with (hp | ((hp | hp | hp) | hp) | (hp | hp)) | hp
      · exact absurd hp (by simp)
      · exact absurd hp (by simp)
      · exact absurd hp (by simp)
      · exact absurd hp (by simp)
      · exact hstage lg lg2 hp
      · exact absurd hp (by simp)
      · exact absurd hp (by simp)
      · exact absurd hp (by simp)

/-- Witness of C6: a run on a scratch directory `/t` holding `B.jpg` and `a.jpg`
creates `/t/B.jpg.resized` below `/t` and ends with the removal of `/t`. -/
theorem C6_scratch_removed_witness :
    (Convert (calmEnv caseVisits 100 200) (ascii "a.cbr") (ascii "a.pdf")).2.getLast?
      = some (.removeAll (ascii "/t")) ∧
    Event.create (ascii "/t/B.jpg.resized") none ∈
      (Convert (calmEnv caseVisits 100 200) (ascii "a.cbr") (ascii "a.pdf")).2 ∧
    (ascii "/t" ++ [47]) <+: ascii "/t/B.jpg.resized" :=
  have h := C6_scratch_removed (calmEnv caseVisits 100 200) (ascii "a.cbr") (ascii "a.pdf")
    (ascii "/t") (by decide) (by decide)
    (fun _ => (by decide : ∀ v ∈ caseVisits,
      v.file = ascii "/t" ∨ (ascii "/t" ++ [47]) <+: v.file))
    (fun _ => ⟨.ext 21, rfl⟩)
  ⟨h.1, by decide, h.2.2 _ none (by decide)⟩

theorem pdfStep_outside (l : List Event) (h : ∀ ev ∈ l, ev.inLoop = false) (doc : List Page) :
    l.foldl pdfStep doc = doc := by
  induction l with
  | nil => rfl
  | cons ev l ih =>
    have h1 := h ev (List.mem_cons_self _ _)
    have h2 := ih (fun e he => h e (List.mem_cons_of_mem _ he))
    cases ev <;> simp_all [pdfStep, Event.inLoop]

theorem isOpen_outside (ev : Event) (h : ev.inLoop = false) : ev.isOpen = false := by
  cases ev <;> simp_all [Event.isOpen, Event.inLoop]

theorem pageFailed_outside (ev : Event) (h : ev.inLoop = false) : ev.pageFailed = false := by
  cases ev <;> simp_all [Event.pageFailed, Event.inLoop]

/-- Calls made outside the loop neither open an image nor touch the pages. -/
theorem frame_facts (pre mid post : List Event) (hpre : ∀ ev ∈ pre, ev.inLoop = false)
    (hpost : ∀ ev ∈ post, ev.inLoop = false) :
    opened (pre ++ mid ++ post) = opened mid ∧
    document (pre ++ mid ++ post) = document mid ∧
    (mid.Pairwise (fun a b => a.pageFailed = true → b.isOpen = false) →
      (pre ++ mid ++ post).Pairwise (fun a b => a.pageFailed = true → b.isOpen = false)) := by
  refine ⟨?_, ?_, ?_⟩
  · rw [opened_append, opened_append,
      opened_eq_nil pre (fun ev hev => isOpen_outside ev (hpre ev hev)),
      opened_eq_nil post (fun ev hev => isOpen_outside ev (hpost ev hev))]
    simp
  · unfold document
    rw [List.foldl_append, List.foldl_append, pdfStep_outside pre hpre,
      pdfStep_outside post hpost]
  · intro hmid
    rw [List.append_assoc]
    exact stop_append_left _ _ (fun ev hev => pageFailed_outside ev (hpre ev hev))
      (stop_append_right _ _ hmid (fun ev hev => isOpen_outside ev (hpost ev hev)))

/-- C3: in every run of `Convert` whose walk located the images
`findImages visits`, `imgToPdf` is called on an initial segment of that list, in
its order and once per position; at most one page is appended per call; once a
step of `imgToPdf` has failed no further image is attempted; and whenever
`Convert` returns success there is at least one image, `imgToPdf` was called on
every image, exactly as many pages as images were appended, and page k carries
the staged file of image k. -/
theorem C3_pages_in_order (env : Env) (src dst loc : GoString) (visits : List Visit)
    (hw : Event.walk loc visits ∈ (Convert env src dst).2) :
    opened (Convert env src dst).2 <+: (findImages visits).1 ∧
    (document (Convert env src dst).2).length ≤ (opened (Convert env src dst).2).length ∧
    (Convert env src dst).2.Pairwise (fun a b => a.pageFailed = true → b.isOpen = false) ∧
    ((Convert env src dst).1 = none →
      1 ≤ (findImages visits).1.length ∧
      opened (Convert env src dst).2 = (findImages visits).1 ∧
      (document (Convert env src dst).2).length = (findImages visits).1.length ∧
      (document (Convert env src dst).2).map Page.images =
        (findImages visits).1.map (fun i => [i ++ ascii ".resized"])) := by
  rcases Convert_cases env src dst with ⟨_, hc⟩ | ⟨_, e, _, hc⟩ | ⟨_, tmpDir, _, hc⟩
  · rw [hc] at hw; simp at hw
  · rw [hc] at hw; simp at hw
  · rcases convertBody_cases env src dst tmpDir [.tempDir (Base src) (.ok tmpDir)] with
      ⟨e, hb⟩ | ⟨lg, e, hf, hb⟩ | ⟨lg, hf, hb⟩ | ⟨lg, lg2, hf, hlen, ⟨e, hr, hb⟩ | ⟨w, hr, hb⟩⟩
    · rw [hc, hb] at hw; simp at hw
    · rw [hc, hb]
      refine ⟨by simp [opened], by simp [opened, document, pdfStep], ?_, by simp⟩
      exact stop_of_no_failure _ (by simp [Event.pageFailed])
    · rw [hc, hb]
      refine ⟨by simp [opened], by simp [opened, document, pdfStep], ?_, by simp⟩
      exact stop_of_no_failure _ (by simp [Event.pageFailed])
    · have hin := renderLoop_inLoop env (findImages (env.walk lg tmpDir)).1.length
        (findImages (env.walk lg tmpDir)).1 0 lg2
      have hv : visits = env.walk lg tmpDir := by
        rw [hc, hb] at hw
        simp only [List.mem_append, List.mem_cons, List.mem_singleton, List.not_mem_nil,
          or_false] at hw
        rcases hw with (hw | (hw | hw | hw) | hw) | hw
        · exact absurd hw (by simp)
        · exact absurd hw (by simp)
        · simp only [Event.walk.injEq] at hw
          exact hw.2
        · exact absurd hw (by simp)
        · have := hin _ hw
          simp [Event.inLoop] at this
        · exact absurd hw (by simp)
      subst hv
      have hT : (Convert env src dst).2 =
          [Event.tempDir (Base src) (.ok tmpDir), .unrar src tmpDir none,
            .walk tmpDir (env.walk lg tmpDir), .pdfStart] ++
          (renderLoop env (findImages (env.walk lg tmpDir)).1.length 0
            (findImages (env.walk lg tmpDir)).1 lg2).2 ++ [.removeAll tmpDir] := by
        rw [hc, hb]; simp
      obtain ⟨ho, hd, hp⟩ := frame_facts
        [Event.tempDir (Base src) (.ok tmpDir), .unrar src tmpDir none,
          .walk tmpDir (env.walk lg tmpDir), .pdfStart]
        (renderLoop env (findImages (env.walk lg tmpDir)).1.length 0
          (findImages (env.walk lg tmpDir)).1 lg2).2 [.removeAll tmpDir]
        (by simp [Event.inLoop]) (by simp [Event.inLoop])
      rw [hT, ho, hd]
      refine ⟨renderLoop_opened_initial _ _ _ _ _, ?_, hp (renderLoop_stop _ _ _ _ _), ?_⟩
      · have := renderLoop_pages env (findImages (env.walk lg tmpDir)).1.length
          (findImages (env.walk lg tmpDir)).1 0 lg2 []
        simpa [document] using this
      · intro hnone
        rw [hc, hb] at hnone
        exact absurd hnone (by simp)
    · have hin := renderLoop_inLoop env (findImages (env.walk lg tmpDir)).1.length
        (findImages (env.walk lg tmpDir)).1 0 lg2
      have hv : visits = env.walk lg tmpDir := by
        rw [hc, hb] at hw
        simp only [List.mem_append, List.mem_cons, List.mem_singleton, List.not_mem_nil,
          or_false] at hw
        rcases hw with (hw | ((hw | hw | hw) | hw) | (hw | hw)) | hw
        · exact absurd hw (by simp)
        · exact absurd hw (by simp)
        · simp only [Event.walk.injEq] at hw
          exact hw.2
        · exact absurd hw (by simp)
        · have := hin _ hw
          simp [Event.inLoop] at this
        · exact absurd hw (by simp)
        · exact absurd hw (by simp)
        · exact absurd hw (by simp)
      subst hv
      have hT : (Convert env src dst).2 =
          [Event.tempDir (Base src) (.ok tmpDir), .unrar src tmpDir none,
            .walk tmpDir (env.walk lg tmpDir), .pdfStart] ++
          (renderLoop env (findImages (env.walk lg tmpDir)).1.length 0
            (findImages (env.walk lg tmpDir)).1 lg2).2 ++
          [.printGenerating dst, .writePdf dst w, .removeAll tmpDir] := by
        rw [hc, hb]; simp
      obtain ⟨ho, hd, hp⟩ := frame_facts
        [Event.tempDir (Base src) (.ok tmpDir), .unrar src tmpDir none,
          .walk tmpDir (env.walk lg tmpDir), .pdfStart]
        (renderLoop env (findImages (env.walk lg tmpDir)).1.length 0
          (findImages (env.walk lg tmpDir)).1 lg2).2
        [.printGenerating dst, .writePdf dst w, .removeAll tmpDir]
        (by simp [Event.inLoop]) (by simp [Event.inLoop])
      rw [hT, ho, hd]
      obtain ⟨pages, hfold, hmap⟩ := renderLoop_ok_doc env
        (findImages (env.walk lg tmpDir)).1.length (findImages (env.walk lg tmpDir)).1 0 lg2 hr []
      have hdoc : document (renderLoop env (findImages (env.walk lg tmpDir)).1.length 0
          (findImages (env.walk lg tmpDir)).1 lg2).2 = pages := by
        unfold document
        rw [hfold]
        simp
      have hopen := renderLoop_ok_opened env (findImages (env.walk lg tmpDir)).1.length
        (findImages (env.walk lg tmpDir)).1 0 lg2 hr
      have hlen2 : pages.length = (findImages (env.walk lg tmpDir)).1.length := by
        have := congrArg List.length hmap
        simpa using this
      refine ⟨renderLoop_opened_initial _ _ _ _ _, ?_, hp (renderLoop_stop _ _ _ _ _), ?_⟩
      · rw [hdoc, hopen, hlen2]
      · intro _
        exact ⟨hlen, hopen, by rw [hdoc, hlen2], by rw [hdoc, hmap]⟩

/-- Witness of C3: on a scratch directory holding `B.jpg` and `a.jpg`, with
every call succeeding, `imgToPdf` is called on `/t/B.jpg` then `/t/a.jpg` and the
document has one page for each, in that order. -/
theorem C3_pages_in_order_witness :
    Event.walk (ascii "/t") caseVisits ∈
      (Convert (calmEnv caseVisits 100 200) (ascii "a.cbr") (ascii "a.pdf")).2 ∧
    (Convert (calmEnv caseVisits 100 200) (ascii "a.cbr") (ascii "a.pdf")).1 = none ∧
    opened (Convert (calmEnv caseVisits 100 200) (ascii "a.cbr") (ascii "a.pdf")).2
      = (findImages caseVisits).1 ∧
    (document (Convert (calmEnv caseVisits 100 200) (ascii "a.cbr") (ascii "a.pdf")).2).map
      Page.images = [[ascii "/t/B.jpg.resized"], [ascii "/t/a.jpg.resized"]] :=
  have h := C3_pages_in_order (calmEnv caseVisits 100 200) (ascii "a.cbr") (ascii "a.pdf")
    (ascii "/t") caseVisits (by decide)
  ⟨by decide, by decide, (h.2.2.2 (by decide)).2.1, by decide⟩

/-! ### Runs that reach finalize -/

theorem imgToPdf_err_failure (env : Env) (src : GoString) (log : List Event) (e : GoError)
    (herr : (imgToPdf env src log).1 = some e) :
    ∃ ev ∈ (imgToPdf env src log).2, ev.failed = true := by
  rcases imgToPdf_cases env src log with
    ⟨e1, h⟩ | ⟨e1, h⟩ | ⟨lg, dx, dy, a, b, w, k, hd, ⟨e1, h⟩ | ⟨e1, h⟩ | ⟨e1, h⟩ | h⟩
  · exact ⟨.openFile src (some e1), by rw [h]; simp, rfl⟩
  · exact ⟨.decode src (.error e1), by rw [h]; simp, rfl⟩
  · exact ⟨.create (src ++ ascii ".resized") (some e1), by rw [h]; simp, rfl⟩
  · exact ⟨.encode (src ++ ascii ".resized") (some e1), by rw [h]; simp, rfl⟩
  · exact ⟨.pdfImage (src ++ ascii ".resized") (some e1), by rw [h]; simp, rfl⟩
  · rw [h] at herr; simp at herr

theorem renderLoop_err_failure (env : Env) (total : Nat) : ∀ (images : List GoString)
    (index : Nat) (log : List Event) (e : GoError),
    (renderLoop env total index images log).1 = some e →
    ∃ ev ∈ (renderLoop env total index images log).2, ev.failed = true := by
  intro images
  induction images with
  | nil => intro index log e h; simp [renderLoop] at h
  | cons image rest ih =>
    intro index log e herr
    cases h : (imgToPdf env image (log ++ [Event.printProgress image (index + 1) total])).1 with
    | some e1 =>
      obtain ⟨ev, hev, hf⟩ := imgToPdf_err_failure _ _ _ e1 h
      rw [renderLoop_cons_err env total index image rest log e1 h]
      exact ⟨ev, List.mem_append_left _ (List.mem_append_right _ hev), hf⟩
    | none =>
      rw [renderLoop_cons_ok env total index image rest log h] at herr ⊢
      obtain ⟨ev, hev, hf⟩ := ih _ _ e herr
      exact ⟨ev, List.mem_append_right _ hev, hf⟩

/-- Conversely to C5: a run with distinct paths in which no step before finalize
fails calls `pdf.WritePdf` on the destination and returns what it returns. -/
theorem Convert_reaches_finalize (env : Env) (src dst : GoString) (hne : src ≠ dst)
    (hok : ∀ ev ∈ (Convert env src dst).2, ev.failed = false) :
    Event.writePdf dst (Convert env src dst).1 ∈ (Convert env src dst).2 := by
  rcases Convert_cases env src dst with ⟨heq, _⟩ | ⟨_, e, _, hc⟩ | ⟨_, tmpDir, _, hc⟩
  · exact absurd heq hne
  · have := hok (.tempDir (Base src) (.error e)) (by rw [hc]; simp)
    simp [Event.failed] at this
  · rcases convertBody_cases env src dst tmpDir [.tempDir (Base src) (.ok tmpDir)] with
      ⟨e, hb⟩ | ⟨lg, e, hf, hb⟩ | ⟨lg, hf, hb⟩ | ⟨lg, lg2, hf, hlen, ⟨e, hr, hb⟩ | ⟨w, hr, hb⟩⟩
    · have := hok (.unrar src tmpDir (some e)) (by rw [hc, hb]; simp)
      simp [Event.failed] at this
    · have := hok (.walk tmpDir (env.walk lg tmpDir)) (by rw [hc, hb]; simp)
      simp [Event.failed, hf] at this
    · have := hok (.walk tmpDir (env.walk lg tmpDir)) (by rw [hc, hb]; simp)
      simp [Event.failed, hf] at this
    · obtain ⟨ev, hev, hfail⟩ := renderLoop_err_failure _ _ _ _ _ e hr
      have := hok ev (by rw [hc, hb]; simp [hev])
      rw [hfail] at this
      exact absurd this (by decide)
    · rw [hc, hb]; simp

/-- Witness of C5: an archive without images fails with the `<src> is empty`
error, and an archive whose second image is corrupted fails with the decoder's
error after `imgToPdf` was called on both images; in neither run is
`pdf.WritePdf` called. -/
theorem C5_failure_never_writes_witness :
    (Convert (calmEnv emptyVisits 100 200) (ascii "a.cbr") (ascii "a.pdf")).1
      = some (.new (ascii "a.cbr is empty")) ∧
    (∀ ev ∈ (Convert (calmEnv emptyVisits 100 200) (ascii "a.cbr") (ascii "a.pdf")).2,
      ev.isWritePdf = false) ∧
    (Convert corruptEnv (ascii "a.cbr") (ascii "a.pdf")).1 = some (.ext 5) ∧
    opened (Convert corruptEnv (ascii "a.cbr") (ascii "a.pdf")).2
      = [ascii "/t/B.jpg", ascii "/t/a.jpg"] ∧
    (∀ ev ∈ (Convert corruptEnv (ascii "a.cbr") (ascii "a.pdf")).2, ev.isWritePdf = false) :=
  have h1 := C5_failure_never_writes (calmEnv emptyVisits 100 200) (ascii "a.cbr")
    (ascii "a.pdf")
  have h2 := C5_failure_never_writes corruptEnv (ascii "a.cbr") (ascii "a.pdf")
  ⟨(h1.2 (ascii "/t") emptyVisits (by decide) (by decide)).1,
    (h1.1 (Or.inr ⟨.walk (ascii "/t") emptyVisits, by decide, by decide⟩)).2,
    by decide, by decide,
    (h2.1 (Or.inr ⟨.decode (ascii "/t/a.jpg") (.error (.ext 5)), by decide, by decide⟩)).2⟩

end Cbr2pdf
